import Mathlib

/-! Bounding volume hierarchy and ray/sphere intersection.

A shallow embedding of `src/scene/bvh.cpp` and `src/scene/sphere.cpp`.

* In the exact reading, `double` is an arbitrary linearly ordered field `K`
  and every operation of the source is the exact one; the C library `sqrt` is
  a parameter `sqrt : K → K`, about which each theorem states what it uses.
  Over `ℚ` the executable `qsqrt` is exact on squares.
* In the reading on doubles (`Dbl`, `OnDoubles`), `double` is the IEEE 754
  binary64 format with rounding to nearest, infinities and not-a-number.  The
  theorems about the sphere code say which reading they use.
* `std::vector<Primitive *>` is a `List P`; the iterators `start`, `end` are
  positions (`Nat`) into it and the vector is passed through explicitly.
* The recursion of `construct_bvh` has no bound in the source, so the
  embedding carries a recursion budget (`fuel`) and answers `none` when the
  budget is exhausted.
-/

set_option linter.unusedSectionVars false

namespace CGL

/-! ## Collaborator types -/

/-- Modelled from the spec: the 3D vector collaborator (`Vector3D`), three
`double` coordinates. -/
structure Vector3D (K : Type) where
  x : K
  y : K
  z : K
deriving DecidableEq

namespace Vector3D

variable {K : Type} [LinearOrderedField K]

instance : Add (Vector3D K) := ⟨fun a b => ⟨a.x + b.x, a.y + b.y, a.z + b.z⟩⟩
instance : Sub (Vector3D K) := ⟨fun a b => ⟨a.x - b.x, a.y - b.y, a.z - b.z⟩⟩

/-- Vector times scalar, `v * c`. -/
def scale (v : Vector3D K) (c : K) : Vector3D K := ⟨v.x * c, v.y * c, v.z * c⟩

/-- Vector divided by scalar, `v / c`. -/
def divs (v : Vector3D K) (c : K) : Vector3D K := ⟨v.x / c, v.y / c, v.z / c⟩

/-- Coordinate `i` of a vector (`0 = x`, `1 = y`, anything else `z`). -/
def coord (v : Vector3D K) (i : Nat) : K :=
  match i with
  | 0 => v.x
  | 1 => v.y
  | _ => v.z

/-- The vector `(c, c, c)`. -/
def diag (c : K) : Vector3D K := ⟨c, c, c⟩

/-- `v.unit()`: the vector divided by its norm `sqrt (v.v)`. -/
def unit (sqrt : K → K) (v : Vector3D K) : Vector3D K :=
  v.divs (sqrt (v.x * v.x + v.y * v.y + v.z * v.z))

end Vector3D

/-- `dot(u, v)`. -/
def dot {K : Type} [LinearOrderedField K] (u v : Vector3D K) : K :=
  u.x * v.x + u.y * v.y + u.z * v.z

/-- Modelled from the spec: the ray collaborator, an origin, a direction and
the valid parametric interval `[min_t, max_t]`, of which `max_t` is mutable
through a `const Ray &`. -/
structure Ray (K : Type) where
  o : Vector3D K
  d : Vector3D K
  min_t : K
  max_t : K
deriving DecidableEq

/-- The point `r.o + r.d * t` of a ray. -/
def Ray.at_ {K : Type} [LinearOrderedField K] (r : Ray K) (t : K) : Vector3D K :=
  r.o + r.d.scale t

/-- Modelled from the spec: the intersection record, holding the hit distance,
the surface normal, the primitive that was hit (`none` is the null pointer)
and its shading model (an opaque handle). -/
structure Intersection (P K : Type) where
  t : K
  n : Vector3D K
  primitive : Option P
  bsdf : Option Nat

/-! ## Sphere (sphere.cpp) -/

/-- Modelled from the spec: the fields of `Sphere` (declared in `sphere.h`):
centre `o`, radius `r`, squared radius `r2`, and the handle that `get_bsdf()`
returns. -/
structure Sphere (K : Type) where
  o : Vector3D K
  r : K
  r2 : K
  bsdf : Nat
deriving DecidableEq

namespace Sphere

variable {K : Type} [LinearOrderedField K]

/-- The coefficient `a = dot(r.d, r.d)` of `Sphere::test`. -/
def qa (r : Ray K) : K := dot r.d r.d

/-- The coefficient `b = 2.0 * dot(r.o - o, r.d)` of `Sphere::test`. -/
def qb (s : Sphere K) (r : Ray K) : K := 2 * dot (r.o - s.o) r.d

/-- The coefficient `c = dot(r.o - o, r.o - o) - r2` of `Sphere::test`. -/
def qc (s : Sphere K) (r : Ray K) : K := dot (r.o - s.o) (r.o - s.o) - s.r2

/-- The discriminant `delta = b * b - 4 * a * c` of `Sphere::test`. -/
def delta (s : Sphere K) (r : Ray K) : K := qb s r * qb s r - 4 * qa r * qc s r

/-- `Sphere::test(r, t1, t2)` in the exact reading (`OnDoubles.test` is the reading on
doubles).  The out-parameters `t1`, `t2` come in with the caller's values and go out in
the result, next to the returned boolean. -/
def test (sqrt : K → K) (s : Sphere K) (r : Ray K) (t1 t2 : K) : Bool × K × K :=
  let a := qa r
  let b := qb s r
  let delta := delta s r
  if delta < 0 then
    (false, t1, t2)
  else
    let t1_ := (-b - sqrt delta) / (2 * a)
    let t2_ := (-b + sqrt delta) / (2 * a)
    let t1 := min t1_ t2_
    let t2 := max t1_ t2_
    if t1_ < r.min_t ∨ t2_ > r.max_t then
      (false, t1, t2)
    else
      (true, t1, t2)

/-- `Sphere::has_intersection(r)` in the exact reading: the returned boolean and the ray after the
call.  The locals `t1`, `t2` are uninitialised in the source; they are only
read after `test` has written them, so their initial value `0` is never seen. -/
def has_intersection (sqrt : K → K) (s : Sphere K) (r : Ray K) : Bool × Ray K :=
  let res := test sqrt s r 0 0
  if ¬ res.1 then
    (false, r)
  else
    (true, { r with max_t := res.2.1 })

/-- `Sphere::intersect(r, i)` in the exact reading: the returned boolean, the ray and the record
after the call. -/
def intersect (sqrt : K → K) (s : Sphere K) (r : Ray K) (i : Intersection (Sphere K) K) :
    Bool × Ray K × Intersection (Sphere K) K :=
  let res := test sqrt s r 0 0
  if ¬ res.1 then
    (false, r, i)
  else
    let t1 := res.2.1
    (true, { r with max_t := t1 },
      { t := t1
        n := Vector3D.unit sqrt (r.o + r.d.scale t1 - s.o)
        primitive := some s
        bsdf := some s.bsdf })

end Sphere

/-! ## Bounding boxes -/

/-- Modelled from the spec: the axis-aligned box collaborator (`BBox`).  A box
that has never been expanded is `empty`; any other box has a `min` and a `max`
corner. -/
inductive BBox (K : Type) where
  | empty : BBox K
  | box (min max : Vector3D K) : BBox K
deriving DecidableEq

namespace BBox

variable {K : Type} [LinearOrderedField K]

/-- Modelled from the spec: `expand` with another box, the union of the two:
component-wise minimum of the `min` corners and maximum of the `max` corners;
the empty box is neutral. -/
def expand : BBox K → BBox K → BBox K
  | empty, b => b
  | a, empty => a
  | box mn mx, box mn' mx' =>
    box ⟨min mn.x mn'.x, min mn.y mn'.y, min mn.z mn'.z⟩
        ⟨max mx.x mx'.x, max mx.y mx'.y, max mx.z mx'.z⟩

/-- Modelled from the spec: `expand` with a point, the union with the box that
holds only that point. -/
def expandPoint (a : BBox K) (p : Vector3D K) : BBox K := a.expand (box p p)

/-- Modelled from the spec: `centroid`, the centre of the box, the midpoint of
its corners.  (Of the empty box the source computes no meaningful centre; the
model answers the origin.) -/
def centroid : BBox K → Vector3D K
  | empty => ⟨0, 0, 0⟩
  | box mn mx => (mn + mx).divs 2

/-- Modelled from the spec: `extent`, the half-extents of the box along the
three axes.  (Of the empty box the model answers zero.) -/
def extent : BBox K → Vector3D K
  | empty => ⟨0, 0, 0⟩
  | box mn mx => (mx - mn).divs 2

/-- The point `p` lies in the box. -/
def containsPoint : BBox K → Vector3D K → Prop
  | empty, _ => False
  | box mn mx, p => mn.x ≤ p.x ∧ p.x ≤ mx.x ∧ mn.y ≤ p.y ∧ p.y ≤ mx.y ∧ mn.z ≤ p.z ∧ p.z ≤ mx.z

/-- Box `a` lies within box `b`: corner-wise comparison, the empty box lies within every
box. -/
def within : BBox K → BBox K → Prop
  | empty, _ => True
  | box _ _, empty => False
  | box mn mx, box mn' mx' =>
    mn'.x ≤ mn.x ∧ mn'.y ≤ mn.y ∧ mn'.z ≤ mn.z ∧ mx.x ≤ mx'.x ∧ mx.y ≤ mx'.y ∧ mx.z ≤ mx'.z

instance decidableContainsPoint (b : BBox K) (p : Vector3D K) :
    Decidable (b.containsPoint p) := by
  cases b <;> simp only [containsPoint] <;> infer_instance

instance decidableWithin (a b : BBox K) : Decidable (a.within b) := by
  cases a <;> cases b <;> simp only [within] <;> infer_instance

/-- A `double` that may be infinite. -/
abbrev Ext (K : Type) := WithBot (WithTop K)

/-- A finite `double` among the possibly infinite ones. -/
def fin (x : K) : Ext K := ((x : WithTop K) : WithBot (WithTop K))

/-- One slab of the slab test: the parameter interval in which `o + t * d` lies in
`[lo, hi]`; `none` when it never does. -/
def slab (lo hi o d : K) : Option (Ext K × Ext K) :=
  if d = 0 then
    if lo ≤ o ∧ o ≤ hi then some (⊥, ((⊤ : WithTop K) : WithBot (WithTop K))) else none
  else
    some (fin (min ((lo - o) / d) ((hi - o) / d)), fin (max ((lo - o) / d) ((hi - o) / d)))

/-- Modelled from the spec: `BBox::intersect(r, t0, t1)`, the exact ray/slab test.
`some (t0, t1)` stands for `true` with the entry and exit distances written,
`none` for `false`.  The test does not look at the ray's interval. -/
def intersect : BBox K → Ray K → Option (Ext K × Ext K)
  | empty, _ => none
  | box mn mx, r =>
    match slab mn.x mx.x r.o.x r.d.x, slab mn.y mx.y r.o.y r.d.y, slab mn.z mx.z r.o.z r.d.z with
    | some tx, some ty, some tz =>
      let t0 := max tx.1 (max ty.1 tz.1)
      let t1 := min tx.2 (min ty.2 tz.2)
      if t0 ≤ t1 then some (t0, t1) else none
    | _, _, _ => none

end BBox

/-- Modelled from the spec: `Sphere::get_bbox()` (declared in `sphere.h`), the box
from `o - (r, r, r)` to `o + (r, r, r)`. -/
def Sphere.get_bbox {K : Type} [LinearOrderedField K] (s : Sphere K) : BBox K :=
  BBox.box (s.o - Vector3D.diag s.r) (s.o + Vector3D.diag s.r)

/-! ## The primitive interface -/

/-- Modelled from the spec: the `Primitive` interface, the virtual functions that
the accelerator calls on a primitive handle of type `P`.  The two tests return the
boolean together with the ray (whose `max_t` they may shrink) and, for the
closest-hit test, the record. -/
structure Primitive (P K : Type) where
  get_bbox : P → BBox K
  has_intersection : P → Ray K → Bool × Ray K
  intersect : P → Ray K → Intersection P K → Bool × Ray K × Intersection P K

/-- `Sphere` as a `Primitive`. -/
def Sphere.primitive {K : Type} [LinearOrderedField K] (sqrt : K → K) :
    Primitive (Sphere K) K where
  get_bbox := Sphere.get_bbox
  has_intersection := Sphere.has_intersection sqrt
  intersect := Sphere.intersect sqrt

/-! ## BVH nodes and construction (bvh.cpp) -/

/-- Modelled from the spec: `BVHNode` (declared in `bvh.h`): the box `bb`, the range
`[start, end)` of positions in the primitive vector, and the children `l`, `r`, both
null for a leaf (`isLeaf()`) and both set for an internal node. -/
inductive BVHNode (K : Type) where
  | leaf (bb : BBox K) (start end_ : Nat) : BVHNode K
  | inner (bb : BBox K) (start end_ : Nat) (l r : BVHNode K) : BVHNode K
deriving DecidableEq

namespace BVHNode

variable {K : Type}

/-- The field `bb`. -/
def bb : BVHNode K → BBox K
  | leaf b _ _ => b
  | inner b _ _ _ _ => b

/-- The field `start`. -/
def start : BVHNode K → Nat
  | leaf _ s _ => s
  | inner _ s _ _ _ => s

/-- The field `end`. -/
def end_ : BVHNode K → Nat
  | leaf _ _ e => e
  | inner _ _ e _ _ => e

/-- The ranges `(start, end)` of the leaves, read left to right. -/
def leafRanges : BVHNode K → List (Nat × Nat)
  | leaf _ s e => [(s, e)]
  | inner _ _ _ l r => l.leafRanges ++ r.leafRanges

/-- All nodes of the tree, a node before its descendants. -/
def nodes : BVHNode K → List (BVHNode K)
  | leaf b s e => [leaf b s e]
  | inner b s e l r => inner b s e l r :: (l.nodes ++ r.nodes)

end BVHNode

/-- The elements of `prims` at the positions `[start, end)`. -/
def slice {P : Type} (prims : List P) (start end_ : Nat) : List P :=
  (prims.drop start).take (end_ - start)

/-- The primitives that lie, in the sequence `prims`, in the leaf ranges of a subtree. -/
def BVHNode.subtreePrims {K P : Type} (prims : List P) (n : BVHNode K) : List P :=
  n.leafRanges.flatMap (fun se => slice prims se.1 se.2)

/-- The ranges tile `[a, b)`: each starts where the one before ended, the first at `a`,
the last ending at `b`, none of negative length. -/
def tiles : Nat → List (Nat × Nat) → Nat → Prop
  | a, [], b => a = b
  | a, (s, e) :: rest, b => s = a ∧ s ≤ e ∧ tiles e rest b

instance decidableTiles : ∀ (a : Nat) (l : List (Nat × Nat)) (b : Nat), Decidable (tiles a l b)
  | a, [], b => by simp only [tiles]; infer_instance
  | a, (s, e) :: rest, b => by
    have := decidableTiles e rest b
    simp only [tiles]
    infer_instance

section Construct

variable {K P : Type} [LinearOrderedField K]

/-- The first loop of `construct_bvh` over the range: the count `numPrim`, the union
`bbox` of the primitives' boxes and the union `centroidBox` of the boxes' centroids. -/
def scanRange (get_bbox : P → BBox K) (range : List P) : Nat × BBox K × BBox K :=
  range.foldl
    (fun st p =>
      let bb := get_bbox p
      (st.1 + 1, st.2.1.expand bb, st.2.2.expandPoint bb.centroid))
    (0, BBox.empty, BBox.empty)

/-- The choice of `axisNum` from `mainExtent = centroidBox.extent`. -/
def chooseAxis (mainExtent : Vector3D K) : Nat :=
  if mainExtent.x > mainExtent.y ∧ mainExtent.x > mainExtent.z then 0
  else if mainExtent.y > mainExtent.z ∧ mainExtent.y > mainExtent.x then 1
  else 2

/-- The loop of `construct_bvh` that splits the range into the vectors `left` and
`right` (`push_back` appends at the end). -/
def splitRange (get_bbox : P → BBox K) (axisNum : Nat) (splitCentroid : Vector3D K)
    (range : List P) : List P × List P :=
  range.foldl
    (fun st p =>
      let pCentroid := (get_bbox p).centroid
      match axisNum with
      | 0 => if pCentroid.x < splitCentroid.x then (st.1 ++ [p], st.2) else (st.1, st.2 ++ [p])
      | 1 => if pCentroid.y < splitCentroid.y then (st.1 ++ [p], st.2) else (st.1, st.2 ++ [p])
      | 2 => if pCentroid.z < splitCentroid.z then (st.1 ++ [p], st.2) else (st.1, st.2 ++ [p])
      | _ => st)
    ([], [])

/-- The loops `*endLeft = v[i]; endLeft++`: write the vector `v` into the primitive
vector from position `it` on; the result is the vector and the advanced iterator. -/
def writeBack (prims : List P) (it : Nat) (v : List P) : List P × Nat :=
  v.foldl (fun st x => (st.1.set st.2 x, st.2 + 1)) (prims, it)

/-- `BVHAccel::construct_bvh(start, end, max_leaf_size)` on the primitive vector
`prims`: the node built and the vector after the call, or `none` when the recursion
is deeper than `fuel`.  The range is `[start, end)` with `start ≤ end ≤ prims.length`;
the counter `numPrim` (an `int` in the source) is a `Nat`. -/
def construct_bvh (get_bbox : P → BBox K) :
    Nat → List P → Nat → Nat → Nat → Option (BVHNode K × List P)
  | 0, _, _, _, _ => none
  | fuel + 1, prims, start, end_, max_leaf_size =>
    let scan := scanRange get_bbox (slice prims start end_)
    let numPrim := scan.1
    let bbox := scan.2.1
    let centroidBox := scan.2.2
    if numPrim ≤ max_leaf_size then
      some (BVHNode.leaf bbox start end_, prims)
    else
      let axisNum := chooseAxis centroidBox.extent
      let splitCentroid := centroidBox.centroid
      let lr := splitRange get_bbox axisNum splitCentroid (slice prims start end_)
      let left := lr.1
      let right := lr.2
      let w1 := writeBack prims start left
      let endLeft := w1.2
      match construct_bvh get_bbox fuel w1.1 start endLeft max_leaf_size with
      | none => none
      | some (l, prims1) =>
        let beginRight := endLeft
        let w2 := writeBack prims1 endLeft right
        match construct_bvh get_bbox fuel w2.1 beginRight w2.2 max_leaf_size with
        | none => none
        | some (r, prims2) => some (BVHNode.inner bbox start end_ l r, prims2)

end Construct

section Functional

variable {K P : Type} [LinearOrderedField K]

/-- The union of a list of boxes, starting from the empty box. -/
def unionBoxes (bs : List (BBox K)) : BBox K := bs.foldl BBox.expand BBox.empty

/-- The union of the boxes of the primitives of a list. -/
def rangeBox (get_bbox : P → BBox K) (xs : List P) : BBox K := unionBoxes (xs.map get_bbox)

/-- The union of the centroids of the boxes of the primitives of a list. -/
def rangeCentroidBox (get_bbox : P → BBox K) (xs : List P) : BBox K :=
  unionBoxes (xs.map (fun p => BBox.box (get_bbox p).centroid (get_bbox p).centroid))

/-- The test of the split loop for primitive `p` of the range `xs`: its centroid is strictly
below the centre of the centroid box on the chosen axis. -/
def belowSplit (get_bbox : P → BBox K) (xs : List P) (p : P) : Bool :=
  decide (((get_bbox p).centroid).coord (chooseAxis (rangeCentroidBox get_bbox xs).extent)
    < ((rangeCentroidBox get_bbox xs).centroid).coord
        (chooseAxis (rangeCentroidBox get_bbox xs).extent))

/-- The construction on the range alone, as a list: the node built for the range `xs` that
sits at position `off` of the vector, and the range after the call. -/
def build (get_bbox : P → BBox K) : Nat → List P → Nat → Nat → Option (BVHNode K × List P)
  | 0, _, _, _ => none
  | fuel + 1, xs, off, max_leaf_size =>
    if xs.length ≤ max_leaf_size then
      some (BVHNode.leaf (rangeBox get_bbox xs) off (off + xs.length), xs)
    else
      let left := xs.filter (belowSplit get_bbox xs)
      let right := xs.filter (fun p => ! belowSplit get_bbox xs p)
      match build get_bbox fuel left off max_leaf_size with
      | none => none
      | some (l, left1) =>
        match build get_bbox fuel right (off + left.length) max_leaf_size with
        | none => none
        | some (r, right1) =>
          some (BVHNode.inner (rangeBox get_bbox xs) off (off + xs.length) l r, left1 ++ right1)

/-- The auxiliary vectors `left` and `right` of a call of `construct_bvh` on the range `xs`,
as its split loop fills them (the axis and the split centroid computed as the call does). -/
def splitOf (get_bbox : P → BBox K) (xs : List P) : List P × List P :=
  splitRange get_bbox (chooseAxis (scanRange get_bbox xs).2.2.extent)
    (scanRange get_bbox xs).2.2.centroid xs

end Functional

/-- Modelled from the spec: `BVHAccel` (declared in `bvh.h`): the owned primitive
vector, the root node and the diagnostic counter `total_isects`. -/
structure BVHAccel (P K : Type) where
  primitives : List P
  root : BVHNode K
  total_isects : Nat

/-- The constructor `BVHAccel::BVHAccel(_primitives, max_leaf_size)`: copy the vector,
build the tree over all of it. -/
def BVHAccel.new {K P : Type} [LinearOrderedField K] (get_bbox : P → BBox K) (fuel : Nat)
    (_primitives : List P) (max_leaf_size : Nat) : Option (BVHAccel P K) :=
  let primitives := _primitives
  match construct_bvh get_bbox fuel primitives 0 primitives.length max_leaf_size with
  | none => none
  | some (root, primitives1) => some { primitives := primitives1, root := root, total_isects := 0 }

/-! ## Traversal (bvh.cpp) -/

section Traverse

variable {K P : Type} [LinearOrderedField K]

/-- The leaf loop of `BVHAccel::has_intersection`: every primitive of the range is
tested in order, the counter is incremented before each test. -/
def leafHas (prim : Primitive P K) (range : List P) (ray : Ray K) (total_isects : Nat) :
    Bool × Ray K × Nat :=
  range.foldl
    (fun st p =>
      let res := prim.has_intersection p st.2.1
      (if res.1 then true else st.1, res.2, st.2.2 + 1))
    (false, ray, total_isects)

/-- The leaf loop of `BVHAccel::intersect`. -/
def leafIntersect (prim : Primitive P K) (range : List P) (ray : Ray K)
    (i : Intersection P K) (total_isects : Nat) : Bool × Ray K × Intersection P K × Nat :=
  range.foldl
    (fun st p =>
      let res := prim.intersect p st.2.1 st.2.2.1
      (if res.1 then true else st.1, res.2.1, res.2.2, st.2.2.2 + 1))
    (false, ray, i, total_isects)

/-- `BVHAccel::has_intersection(ray, node)`: the returned boolean, the ray and the
counter `total_isects` after the call.  `bbIntersect` is the box test
`BBox::intersect`, `prims` the accelerator's primitive vector. -/
def BVHAccel.has_intersection (prim : Primitive P K)
    (bbIntersect : BBox K → Ray K → Option (BBox.Ext K × BBox.Ext K)) (prims : List P) :
    BVHNode K → Ray K → Nat → Bool × Ray K × Nat
  | BVHNode.leaf bb start end_, ray, total_isects =>
    match bbIntersect bb ray with
    | none => (false, ray, total_isects)
    | some (t0, t1) =>
      if t1 < BBox.fin ray.min_t ∨ t0 > BBox.fin ray.max_t then
        (false, ray, total_isects)
      else
        leafHas prim (slice prims start end_) ray total_isects
  | BVHNode.inner bb _ _ l r, ray, total_isects =>
    match bbIntersect bb ray with
    | none => (false, ray, total_isects)
    | some (t0, t1) =>
      if t1 < BBox.fin ray.min_t ∨ t0 > BBox.fin ray.max_t then
        (false, ray, total_isects)
      else
        let left := BVHAccel.has_intersection prim bbIntersect prims l ray total_isects
        let right := BVHAccel.has_intersection prim bbIntersect prims r left.2.1 left.2.2
        (left.1 || right.1, right.2.1, right.2.2)

/-- `BVHAccel::intersect(ray, i, node)`: the returned boolean, the ray, the record and
the counter after the call. -/
def BVHAccel.intersect (prim : Primitive P K)
    (bbIntersect : BBox K → Ray K → Option (BBox.Ext K × BBox.Ext K)) (prims : List P) :
    BVHNode K → Ray K → Intersection P K → Nat → Bool × Ray K × Intersection P K × Nat
  | BVHNode.leaf bb start end_, ray, i, total_isects =>
    match bbIntersect bb ray with
    | none => (false, ray, i, total_isects)
    | some (t0, t1) =>
      if t1 < BBox.fin ray.min_t ∨ t0 > BBox.fin ray.max_t then
        (false, ray, i, total_isects)
      else
        leafIntersect prim (slice prims start end_) ray i total_isects
  | BVHNode.inner bb _ _ l r, ray, i, total_isects =>
    match bbIntersect bb ray with
    | none => (false, ray, i, total_isects)
    | some (t0, t1) =>
      if t1 < BBox.fin ray.min_t ∨ t0 > BBox.fin ray.max_t then
        (false, ray, i, total_isects)
      else
        let left := BVHAccel.intersect prim bbIntersect prims l ray i total_isects
        let right := BVHAccel.intersect prim bbIntersect prims r left.2.1 left.2.2.1 left.2.2.2
        (left.1 || right.1, right.2.1, right.2.2.1, right.2.2.2)

/-- The brute-force linear scan: `intersect` of every primitive of the list in its
given order, on one ray and one record. -/
def bruteIntersect (prim : Primitive P K) (prims : List P) (ray : Ray K)
    (i : Intersection P K) : Bool × Ray K × Intersection P K :=
  prims.foldl
    (fun st p =>
      let res := prim.intersect p st.2.1 st.2.2
      (if res.1 then true else st.1, res.2.1, res.2.2))
    (false, ray, i)

end Traverse

/-- An executable square root on `ℚ`: the integer square roots of numerator
and denominator.  It is exact on squares of rationals. -/
def qsqrt (q : ℚ) : ℚ := (Nat.sqrt q.num.toNat : ℚ) / (Nat.sqrt q.den : ℚ)


/-! ## Reading the traversal -/

section TraverseSpec

variable {K P : Type} [LinearOrderedField K]

/-- The pruning rule at a node with box `bb`: the box test reports a miss, or it yields
`(t0, t1)` with `t1 < ray.min_t` or `t0 > ray.max_t`. -/
def prunes (bbIntersect : BBox K → Ray K → Option (BBox.Ext K × BBox.Ext K)) (bb : BBox K)
    (ray : Ray K) : Prop :=
  match bbIntersect bb ray with
  | none => True
  | some (t0, t1) => t1 < BBox.fin ray.min_t ∨ t0 > BBox.fin ray.max_t

instance decidablePrunes (bbIntersect : BBox K → Ray K → Option (BBox.Ext K × BBox.Ext K))
    (bb : BBox K) (ray : Ray K) : Decidable (prunes bbIntersect bb ray) := by
  unfold prunes
  split <;> infer_instance

/-- The first-hit test of every primitive of a list in order, each on the ray as the one
before left it: the list of the returned booleans and the ray after the last test. -/
def anyHitResults (prim : Primitive P K) : List P → Ray K → List Bool × Ray K
  | [], ray => ([], ray)
  | p :: ps, ray =>
    ((prim.has_intersection p ray).1 :: (anyHitResults prim ps (prim.has_intersection p ray).2).1,
      (anyHitResults prim ps (prim.has_intersection p ray).2).2)

/-- The closest-hit test of every primitive of a list in order, each on the ray and the
record as the one before left them: the list of the returned booleans, and the ray and the
record after the last test. -/
def closestResults (prim : Primitive P K) :
    List P → Ray K → Intersection P K → List Bool × Ray K × Intersection P K
  | [], ray, i => ([], ray, i)
  | p :: ps, ray, i =>
    ((prim.intersect p ray i).1 ::
        (closestResults prim ps (prim.intersect p ray i).2.1 (prim.intersect p ray i).2.2).1,
      (closestResults prim ps (prim.intersect p ray i).2.1 (prim.intersect p ray i).2.2).2)

/-- The total size of the leaves that the any-hit query on a node reaches without
pruning, each child met with the ray as the traversal before it left it. -/
def reachedHas (prim : Primitive P K)
    (bbIntersect : BBox K → Ray K → Option (BBox.Ext K × BBox.Ext K)) (prims : List P) :
    BVHNode K → Ray K → Nat
  | BVHNode.leaf bb start end_, ray =>
    if prunes bbIntersect bb ray then 0 else (slice prims start end_).length
  | BVHNode.inner bb _ _ l r, ray =>
    if prunes bbIntersect bb ray then 0
    else
      reachedHas prim bbIntersect prims l ray +
        reachedHas prim bbIntersect prims r
          (BVHAccel.has_intersection prim bbIntersect prims l ray 0).2.1

/-- The total size of the leaves that the closest-hit query on a node reaches without
pruning, each child met with the ray and the record as the traversal before it left
them. -/
def reachedIntersect (prim : Primitive P K)
    (bbIntersect : BBox K → Ray K → Option (BBox.Ext K × BBox.Ext K)) (prims : List P) :
    BVHNode K → Ray K → Intersection P K → Nat
  | BVHNode.leaf bb start end_, ray, _ =>
    if prunes bbIntersect bb ray then 0 else (slice prims start end_).length
  | BVHNode.inner bb _ _ l r, ray, i =>
    if prunes bbIntersect bb ray then 0
    else
      reachedIntersect prim bbIntersect prims l ray i +
        reachedIntersect prim bbIntersect prims r
          (BVHAccel.intersect prim bbIntersect prims l ray i 0).2.1
          (BVHAccel.intersect prim bbIntersect prims l ray i 0).2.2.1

end TraverseSpec

/-! ## IEEE 754 binary64

The `double` of the source with its rounding, its infinities and its not-a-number, for the
claims that exact arithmetic does not decide. -/

/-- The power `2^e` as a rational. -/
def pow2 (e : ℤ) : ℚ :=
  if 0 ≤ e then ((2 ^ e.toNat : ℕ) : ℚ) else 1 / ((2 ^ (-e).toNat : ℕ) : ℚ)

/-- The number of binary digits of `n`, by halving `n` until it is zero (`fuel` bounds the
number of halvings). -/
def bitsAux : ℕ → ℕ → ℕ
  | 0, _ => 0
  | fuel + 1, n => if n = 0 then 0 else bitsAux fuel (n / 2) + 1

/-- The number of binary digits of `n`: `2^(bits n - 1) ≤ n < 2^(bits n)` for `n > 0`. -/
def bits (n : ℕ) : ℕ := bitsAux n n

/-- Newton's iteration `x ↦ (x + n / x) / 2` for the integer square root of `n`, from a
guess `x` that is at least the root, until it no longer decreases. -/
def isqrtAux : ℕ → ℕ → ℕ → ℕ
  | 0, _, x => x
  | fuel + 1, n, x => if (x + n / x) / 2 < x then isqrtAux fuel n ((x + n / x) / 2) else x

/-- The integer square root of `n`: the greatest `r` with `r * r ≤ n`. -/
def isqrt (n : ℕ) : ℕ := if n = 0 then 0 else isqrtAux n n (2 ^ ((bits n + 1) / 2))

/-- The binary exponent of a positive rational `q`: the `e` with `2^e ≤ q < 2^(e+1)`.  It is
the difference of the exponents of numerator and denominator, or one less. -/
def ilog2 (q : ℚ) : ℤ :=
  if pow2 ((bits q.num.toNat : ℤ) - (bits q.den : ℤ)) ≤ q then
    (bits q.num.toNat : ℤ) - (bits q.den : ℤ)
  else
    (bits q.num.toNat : ℤ) - (bits q.den : ℤ) - 1

/-- A rational `q ≥ 0` rounded to the nearest integer, ties to the even one. -/
def roundEven (q : ℚ) : ℕ :=
  if q - ((q.num.toNat / q.den : ℕ) : ℚ) < 1 / 2 then q.num.toNat / q.den
  else if 1 / 2 < q - ((q.num.toNat / q.den : ℕ) : ℚ) then q.num.toNat / q.den + 1
  else if (q.num.toNat / q.den) % 2 = 0 then q.num.toNat / q.den
  else q.num.toNat / q.den + 1

/-- A value of the IEEE 754 binary64 format (`double`): not-a-number, an infinity with its
sign, or a finite value given by its sign and its magnitude (so that `-0` differs from
`+0`). -/
inductive Dbl where
  | nan : Dbl
  | inf (neg : Bool) : Dbl
  | fin (neg : Bool) (mag : ℚ) : Dbl
deriving DecidableEq

namespace Dbl

/-- The spacing of the doubles around a magnitude `mag > 0`: `2^(e - 52)` for the binary
exponent `e` of `mag`, and `2^-1074` below `2^-1022`. -/
def ulp (mag : ℚ) : ℚ := pow2 (max (ilog2 mag) (-1022) - 52)

/-- Rounding to nearest, ties to even, of the exact result with sign `neg` and magnitude
`mag ≥ 0`: the nearest multiple of the spacing, and infinity when that is `2^1024` or
more. -/
def round (neg : Bool) (mag : ℚ) : Dbl :=
  if mag = 0 then fin neg 0
  else if pow2 1024 ≤ (roundEven (mag / ulp mag) : ℚ) * ulp mag then inf neg
  else fin neg ((roundEven (mag / ulp mag) : ℚ) * ulp mag)

/-- The rational value of a finite magnitude with its sign. -/
def signed (neg : Bool) (mag : ℚ) : ℚ := if neg then -mag else mag

/-- The double nearest to a rational. -/
def ofRat (q : ℚ) : Dbl := round (decide (q < 0)) |q|

/-- Unary minus. -/
def neg : Dbl → Dbl
  | nan => nan
  | inf n => inf (!n)
  | fin n m => fin (!n) m

/-- Addition. -/
def add : Dbl → Dbl → Dbl
  | nan, _ => nan
  | _, nan => nan
  | inf n1, inf n2 => if n1 = n2 then inf n1 else nan
  | inf n, fin _ _ => inf n
  | fin _ _, inf n => inf n
  | fin n1 m1, fin n2 m2 =>
    if signed n1 m1 + signed n2 m2 = 0 then fin (n1 && n2) 0
    else round (decide (signed n1 m1 + signed n2 m2 < 0)) |signed n1 m1 + signed n2 m2|

/-- Subtraction. -/
def sub (x y : Dbl) : Dbl := add x (neg y)

/-- Multiplication. -/
def mul : Dbl → Dbl → Dbl
  | nan, _ => nan
  | _, nan => nan
  | inf n1, inf n2 => inf (xor n1 n2)
  | inf n1, fin n2 m2 => if m2 = 0 then nan else inf (xor n1 n2)
  | fin n1 m1, inf n2 => if m1 = 0 then nan else inf (xor n1 n2)
  | fin n1 m1, fin n2 m2 => round (xor n1 n2) (m1 * m2)

/-- Division. -/
def div : Dbl → Dbl → Dbl
  | nan, _ => nan
  | _, nan => nan
  | inf _, inf _ => nan
  | inf n1, fin n2 _ => inf (xor n1 n2)
  | fin n1 _, inf n2 => fin (xor n1 n2) 0
  | fin n1 m1, fin n2 m2 =>
    if m2 = 0 then (if m1 = 0 then nan else inf (xor n1 n2))
    else round (xor n1 n2) (m1 / m2)

/-- The number of bit pairs by which `sqrtPos` scales its argument `m > 0`, so that the
scaled value has at least 110 bits. -/
def sqrtScale (m : ℚ) : ℕ := ((110 - ilog2 m).toNat + 1) / 2

/-- The square root of a rational `m > 0`, correctly rounded: with `r` the integer square
root of `m * 4^k` (at least 55 bits), the root lies in `[r, r + 1)` and is `r` only when
`r * r = m * 4^k`; otherwise `r + 1/2` rounds as the root does. -/
def sqrtPos (m : ℚ) : Dbl :=
  let scaled := m * pow2 (2 * (sqrtScale m : ℤ))
  let r := isqrt (scaled.num.toNat / scaled.den)
  if (r : ℚ) * (r : ℚ) = scaled then round false ((r : ℚ) / pow2 (sqrtScale m : ℤ))
  else round false (((r : ℚ) + 1 / 2) / pow2 (sqrtScale m : ℤ))

/-- The C library `sqrt`. -/
def sqrt : Dbl → Dbl
  | nan => nan
  | inf n => if n then nan else inf false
  | fin n m => if m = 0 then fin n 0 else if n then nan else sqrtPos m

/-- The comparison `x < y`: false when either side is not a number; `-0` equals `+0`. -/
def lt : Dbl → Dbl → Bool
  | nan, _ => false
  | _, nan => false
  | inf n1, inf n2 => n1 && !n2
  | inf n, fin _ _ => n
  | fin _ _, inf n => !n
  | fin n1 m1, fin n2 m2 => decide (signed n1 m1 < signed n2 m2)

/-- `std::min(a, b)`: `b` when `b < a`, else `a`. -/
def min (a b : Dbl) : Dbl := if lt b a then b else a

/-- `std::max(a, b)`: `b` when `a < b`, else `a`. -/
def max (a b : Dbl) : Dbl := if lt a b then b else a

end Dbl

namespace Dbl

/-- The comparison `x <= y`: false when either side is not a number. -/
def le : Dbl → Dbl → Bool
  | nan, _ => false
  | _, nan => false
  | inf n1, inf n2 => n1 || !n2
  | inf n, fin _ _ => n
  | fin _ _, inf n => !n
  | fin n1 m1, fin n2 m2 => decide (signed n1 m1 ≤ signed n2 m2)

end Dbl

/-- A vector of rationals as a vector of doubles (each coordinate rounded; exact when the
coordinate is a double). -/
def Vector3D.toDbl (v : Vector3D ℚ) : Vector3D Dbl :=
  ⟨Dbl.ofRat v.x, Dbl.ofRat v.y, Dbl.ofRat v.z⟩

/-- A ray of rationals as a ray of doubles. -/
def Ray.toDbl (r : Ray ℚ) : Ray Dbl :=
  ⟨r.o.toDbl, r.d.toDbl, Dbl.ofRat r.min_t, Dbl.ofRat r.max_t⟩

/-- A sphere of rationals as a sphere of doubles. -/
def Sphere.toDbl (s : Sphere ℚ) : Sphere Dbl :=
  ⟨s.o.toDbl, Dbl.ofRat s.r, Dbl.ofRat s.r2, s.bsdf⟩

/-- The rational `q` is a double: rounding leaves it as it is. -/
def Dbl.exact (q : ℚ) : Prop := Dbl.ofRat q = Dbl.fin (decide (q < 0)) |q|

instance Dbl.decidableExact (q : ℚ) : Decidable (Dbl.exact q) := by
  unfold Dbl.exact
  infer_instance

/-- All coordinates of the vector are doubles. -/
def Vector3D.exact (v : Vector3D ℚ) : Prop := Dbl.exact v.x ∧ Dbl.exact v.y ∧ Dbl.exact v.z

instance Vector3D.decidableExact (v : Vector3D ℚ) : Decidable v.exact := by
  unfold Vector3D.exact
  infer_instance

/-- All numbers of the ray are doubles. -/
def Ray.exact (r : Ray ℚ) : Prop :=
  r.o.exact ∧ r.d.exact ∧ Dbl.exact r.min_t ∧ Dbl.exact r.max_t

instance Ray.decidableExact (r : Ray ℚ) : Decidable r.exact := by
  unfold Ray.exact
  infer_instance

/-- All numbers of the sphere are doubles. -/
def Sphere.exact (s : Sphere ℚ) : Prop := s.o.exact ∧ Dbl.exact s.r ∧ Dbl.exact s.r2

instance Sphere.decidableExact (s : Sphere ℚ) : Decidable s.exact := by
  unfold Sphere.exact
  infer_instance

/-! ## Sphere (sphere.cpp) on doubles -/

namespace OnDoubles

/-- Modelled from the spec: the difference `u - v` of two vectors, coordinate by
coordinate. -/
def vsub (u v : Vector3D Dbl) : Vector3D Dbl := ⟨u.x.sub v.x, u.y.sub v.y, u.z.sub v.z⟩

/-- Modelled from the spec: the sum `u + v` of two vectors, coordinate by coordinate. -/
def vadd (u v : Vector3D Dbl) : Vector3D Dbl := ⟨u.x.add v.x, u.y.add v.y, u.z.add v.z⟩

/-- Modelled from the spec: the vector times a scalar, `v * c`. -/
def vscale (v : Vector3D Dbl) (c : Dbl) : Vector3D Dbl := ⟨v.x.mul c, v.y.mul c, v.z.mul c⟩

/-- Modelled from the spec: `dot(u, v)`, the sum `u.x*v.x + u.y*v.y + u.z*v.z` added from
the left. -/
def dot (u v : Vector3D Dbl) : Dbl := ((u.x.mul v.x).add (u.y.mul v.y)).add (u.z.mul v.z)

/-- Modelled from the spec: `v.unit()`, each coordinate divided by the norm
`sqrt(dot(v, v))`. -/
def unit (v : Vector3D Dbl) : Vector3D Dbl :=
  ⟨v.x.div (dot v v).sqrt, v.y.div (dot v v).sqrt, v.z.div (dot v v).sqrt⟩

/-- `Sphere::test(r, t1, t2)` on doubles: each operation of the source is the IEEE operation,
the literals `2.0`, `4`, `2` and `0` are the doubles of these values. -/
def test (s : Sphere Dbl) (r : Ray Dbl) (t1 t2 : Dbl) : Bool × Dbl × Dbl :=
  let a := dot r.d r.d
  let b := (Dbl.fin false 2).mul (dot (vsub r.o s.o) r.d)
  let c := (dot (vsub r.o s.o) (vsub r.o s.o)).sub s.r2
  let delta := (b.mul b).sub (((Dbl.fin false 4).mul a).mul c)
  if delta.lt (Dbl.fin false 0) then
    (false, t1, t2)
  else
    let t1_ := (b.neg.sub delta.sqrt).div ((Dbl.fin false 2).mul a)
    let t2_ := (b.neg.add delta.sqrt).div ((Dbl.fin false 2).mul a)
    let t1 := Dbl.min t1_ t2_
    let t2 := Dbl.max t1_ t2_
    if t1_.lt r.min_t ∨ r.max_t.lt t2_ then
      (false, t1, t2)
    else
      (true, t1, t2)

/-- `Sphere::has_intersection(r)` on doubles.  The uninitialised locals `t1`, `t2` start as
`0`; they are only read after `test` has written them. -/
def has_intersection (s : Sphere Dbl) (r : Ray Dbl) : Bool × Ray Dbl :=
  let res := test s r (Dbl.fin false 0) (Dbl.fin false 0)
  if ¬ res.1 then
    (false, r)
  else
    (true, { r with max_t := res.2.1 })

/-- `Sphere::intersect(r, i)` on doubles. -/
def intersect (s : Sphere Dbl) (r : Ray Dbl) (i : Intersection (Sphere Dbl) Dbl) :
    Bool × Ray Dbl × Intersection (Sphere Dbl) Dbl :=
  let res := test s r (Dbl.fin false 0) (Dbl.fin false 0)
  if ¬ res.1 then
    (false, r, i)
  else
    let t1 := res.2.1
    (true, { r with max_t := t1 },
      { t := t1
        n := unit (vsub (vadd r.o (vscale r.d t1)) s.o)
        primitive := some s
        bsdf := some s.bsdf })

end OnDoubles

/-! ## Concrete inputs -/

/-- A unit sphere centred at `(x, 0, 0)`. -/
def unitSphereAt (x : ℚ) : Sphere ℚ := ⟨⟨x, 0, 0⟩, 1, 1, 0⟩

/-- Nine unit spheres centred at distinct points of the x-axis. -/
def nineSpheres : List (Sphere ℚ) :=
  [unitSphereAt 0, unitSphereAt 3, unitSphereAt 6, unitSphereAt 9, unitSphereAt 12,
   unitSphereAt 15, unitSphereAt 18, unitSphereAt 21, unitSphereAt 24]

/-- Two unit spheres that share their centre. -/
def twinSpheres : List (Sphere ℚ) := [unitSphereAt 0, unitSphereAt 0]

/-- The sphere centred at the origin with radius 2 (`r2 = 4`). -/
def originSphere : Sphere ℚ := ⟨⟨0, 0, 0⟩, 2, 4, 0⟩

/-- The ray from `(0, 0, -10)` in direction `(0, 0, 1)` with interval `[0, max_t]`. -/
def axisRay (max_t : ℚ) : Ray ℚ := ⟨⟨0, 0, -10⟩, ⟨0, 0, 1⟩, 0, max_t⟩

/-- The ray from `(0, 0, -10)` in direction `(0, 0, -1)`, pointing away from the origin,
with interval `[0, 100]`. -/
def awayRay : Ray ℚ := ⟨⟨0, 0, -10⟩, ⟨0, 0, -1⟩, 0, 100⟩

/-- An intersection record that no test has written yet. -/
def blankRecord : Intersection (Sphere ℚ) ℚ := ⟨0, ⟨0, 0, 0⟩, none, none⟩

/-- The ray from `(18, 0, -10)` in direction `(0, 0, 1)`, aimed at the seventh of the nine
spheres, with interval `[0, 100]`. -/
def seventhRay : Ray ℚ := ⟨⟨18, 0, -10⟩, ⟨0, 0, 1⟩, 0, 100⟩

/-- Two overlapping spheres of radius 2 on the z-axis: the first centred at the origin, the
second at `(0, 0, -3)`. -/
def overlapSpheres : List (Sphere ℚ) := [originSphere, ⟨⟨0, 0, -3⟩, 2, 4, 0⟩]

/-- The closest-hit query through the tree built from `prims`: the returned boolean, the
ray's `max_t` and the record's `t` after `BVHAccel::intersect` on the root. -/
def closestViaTree (fuel : Nat) (prims : List (Sphere ℚ)) (max_leaf_size : Nat) (ray : Ray ℚ) :
    Option (Bool × ℚ × ℚ) :=
  (BVHAccel.new Sphere.get_bbox fuel prims max_leaf_size).map (fun acc =>
    let res := BVHAccel.intersect (Sphere.primitive qsqrt) BBox.intersect acc.primitives
      acc.root ray blankRecord acc.total_isects
    (res.1, res.2.1.max_t, res.2.2.1.t))

/-- The closest-hit query by the brute-force scan of `prims` in the given order: the
returned boolean, the ray's `max_t` and the record's `t`. -/
def closestViaScan (prims : List (Sphere ℚ)) (ray : Ray ℚ) : Bool × ℚ × ℚ :=
  let res := bruteIntersect (Sphere.primitive qsqrt) prims ray blankRecord
  (res.1, res.2.1.max_t, res.2.2.t)

/-- Two unit spheres on the diagonal of the xy-plane, centred at `(0, 0, 0)` and
`(2, 2, 0)`. -/
def diagonalSpheres : List (Sphere ℚ) := [⟨⟨0, 0, 0⟩, 1, 1, 0⟩, ⟨⟨2, 2, 0⟩, 1, 1, 0⟩]

/-- A leaf over the first of the nine spheres alone, with that sphere's box. -/
def firstLeaf : BVHNode ℚ := BVHNode.leaf (unitSphereAt 0).get_bbox 0 1

/-- A leaf over the seventh of the nine spheres alone, with that sphere's box. -/
def seventhLeaf : BVHNode ℚ := BVHNode.leaf (unitSphereAt 18).get_bbox 6 7

/-- The ray from `(0, 0, -10^8)` in direction `(0, 0, 1)` with interval `[0, 10^9]`. -/
def farRay : Ray ℚ := ⟨⟨0, 0, -100000000⟩, ⟨0, 0, 1⟩, 0, 1000000000⟩

/-- The ray from `(0, 0, -2^600)` in direction `(0, 0, 1)` with interval `[0, 100]`. -/
def hugeRay : Ray ℚ := ⟨⟨0, 0, -(2 ^ 600)⟩, ⟨0, 0, 1⟩, 0, 100⟩

/-- The sphere centred at the origin with radius `5 * 2^58` (`r2 = 25 * 2^116`). -/
def wideSphere : Sphere ℚ := ⟨⟨0, 0, 0⟩, 5 * 2 ^ 58, 25 * 2 ^ 116, 0⟩

/-- The ray from `(1, 3 * 2^58, 4 * 2^58)` in direction `(1, 4, -3)` with interval
`[0, 100]`: its origin lies outside `wideSphere` and it points away from it. -/
def tangentRay : Ray ℚ := ⟨⟨1, 3 * 2 ^ 58, 4 * 2 ^ 58⟩, ⟨1, 4, -3⟩, 0, 100⟩

/-- The ray from `(100, 0, 0)` with the zero direction and interval `[0, 100]`. -/
def zeroRay : Ray ℚ := ⟨⟨100, 0, 0⟩, ⟨0, 0, 0⟩, 0, 100⟩

/-- The ray from `(1 + 2^-52, 0, -10)` in direction `(0, 0, 1)` with interval `[0, 100]`: it
passes the unit sphere at the origin at a distance of `2^-52`. -/
def grazeRay : Ray ℚ := ⟨⟨1 + 1 / 2 ^ 52, 0, -10⟩, ⟨0, 0, 1⟩, 0, 100⟩

/-- An intersection record on doubles that no test has written yet. -/
def blankRecordD : Intersection (Sphere Dbl) Dbl :=
  ⟨Dbl.fin false 0, ⟨Dbl.fin false 0, Dbl.fin false 0, Dbl.fin false 0⟩, none, none⟩

/-! # Theorems -/

section ConstructLemmas

variable {K P : Type} [LinearOrderedField K]

theorem scanRange_foldl (g : P → BBox K) (xs : List P) (n : Nat) (b c : BBox K) :
    xs.foldl
      (fun (st : Nat × BBox K × BBox K) p =>
        (st.1 + 1, st.2.1.expand (g p), st.2.2.expandPoint (g p).centroid)) (n, b, c)
    = (n + xs.length, (xs.map g).foldl BBox.expand b,
        (xs.map (fun p => BBox.box (g p).centroid (g p).centroid)).foldl BBox.expand c) := by
  induction xs generalizing n b c with
  | nil => simp
  | cons x xs ih =>
    rw [List.foldl_cons, ih]
    simp only [List.map_cons, List.length_cons, List.foldl_cons, BBox.expandPoint, Prod.mk.injEq,
      and_true]
    omega

theorem scanRange_eq (g : P → BBox K) (xs : List P) :
    scanRange g xs = (xs.length, rangeBox g xs, rangeCentroidBox g xs) := by
  unfold scanRange rangeBox rangeCentroidBox unionBoxes
  simpa using scanRange_foldl g xs 0 BBox.empty BBox.empty

theorem chooseAxis_le (v : Vector3D K) : chooseAxis v ≤ 2 := by
  unfold chooseAxis
  split_ifs <;> omega

theorem split_foldl (q : P → Prop) [DecidablePred q] (xs l r : List P) :
    xs.foldl
      (fun (st : List P × List P) p => if q p then (st.1 ++ [p], st.2) else (st.1, st.2 ++ [p]))
      (l, r)
    = (l ++ xs.filter (fun p => decide (q p)), r ++ xs.filter (fun p => ! decide (q p))) := by
  induction xs generalizing l r with
  | nil => simp
  | cons x xs ih =>
    simp only [List.foldl_cons, List.filter_cons]
    by_cases hq : q x <;> simp [hq, ih]

theorem splitRange_foldl (g : P → BBox K) (ax : Nat) (hax : ax ≤ 2) (c : Vector3D K)
    (xs : List P) :
    splitRange g ax c xs
    = (xs.filter (fun p => decide ((g p).centroid.coord ax < c.coord ax)),
       xs.filter (fun p => ! decide ((g p).centroid.coord ax < c.coord ax))) := by
  unfold splitRange
  interval_cases ax
  · simpa [Vector3D.coord] using split_foldl (fun p => (g p).centroid.x < c.x) xs [] []
  · simpa [Vector3D.coord] using split_foldl (fun p => (g p).centroid.y < c.y) xs [] []
  · simpa [Vector3D.coord] using split_foldl (fun p => (g p).centroid.z < c.z) xs [] []

theorem splitRange_eq (g : P → BBox K) (xs : List P) :
    splitRange g (chooseAxis (rangeCentroidBox g xs).extent) (rangeCentroidBox g xs).centroid xs
      = (xs.filter (belowSplit g xs), xs.filter (fun p => ! belowSplit g xs p)) := by
  have h := splitRange_foldl g _ (chooseAxis_le (rangeCentroidBox g xs).extent)
    (rangeCentroidBox g xs).centroid xs
  simpa [belowSplit] using h

theorem writeBack_append (A Y B v : List P) (h : v.length = Y.length) :
    writeBack (A ++ Y ++ B) A.length v = (A ++ v ++ B, A.length + v.length) := by
  unfold writeBack
  induction v generalizing A Y with
  | nil =>
    cases Y with
    | nil => simp
    | cons y Y => simp at h
  | cons x v ih =>
    cases Y with
    | nil => simp at h
    | cons y Y =>
      simp only [List.length_cons, Nat.add_right_cancel_iff] at h
      have h1 : (A ++ y :: Y ++ B).set A.length x = (A ++ [x]) ++ Y ++ B := by
        simp [List.set_append]
      have h2 : A.length + 1 = (A ++ [x]).length := by simp
      simp only [List.foldl_cons, h1]
      rw [h2, ih (A ++ [x]) Y h]
      simp
      omega

theorem slice_append (A X B : List P) :
    slice (A ++ X ++ B) A.length (A.length + X.length) = X := by
  simp [slice, List.append_assoc]

theorem build_succ_some {g : P → BBox K} {fuel : Nat} {xs : List P} {off m : Nat}
    {t : BVHNode K} {ys : List P} (h : build g (fuel + 1) xs off m = some (t, ys)) :
    (xs.length ≤ m ∧ t = BVHNode.leaf (rangeBox g xs) off (off + xs.length) ∧ ys = xs) ∨
    (m < xs.length ∧ ∃ l ls r rs,
      build g fuel (xs.filter (belowSplit g xs)) off m = some (l, ls) ∧
      build g fuel (xs.filter (fun p => ! belowSplit g xs p))
        (off + (xs.filter (belowSplit g xs)).length) m = some (r, rs) ∧
      t = BVHNode.inner (rangeBox g xs) off (off + xs.length) l r ∧ ys = ls ++ rs) := by
  unfold build at h
  by_cases hm : xs.length ≤ m
  · left
    simp only [hm, if_true, Option.some.injEq, Prod.mk.injEq] at h
    exact ⟨hm, h.1.symm, h.2.symm⟩
  · right
    simp only [hm, if_false] at h
    refine ⟨by omega, ?_⟩
    cases hl : build g fuel (xs.filter (belowSplit g xs)) off m with
    | none => simp [hl] at h
    | some lres =>
      obtain ⟨l, ls⟩ := lres
      cases hr : build g fuel (xs.filter (fun p => ! belowSplit g xs p))
          (off + (xs.filter (belowSplit g xs)).length) m with
      | none => simp [hl, hr] at h
      | some rres =>
        obtain ⟨r, rs⟩ := rres
        simp only [hl, hr, Option.some.injEq, Prod.mk.injEq] at h
        exact ⟨l, ls, r, rs, rfl, rfl, h.1.symm, h.2.symm⟩

theorem filter_split_perm (q : P → Bool) (xs : List P) :
    (xs.filter q ++ xs.filter (fun p => ! q p)).Perm xs :=
  List.filter_append_perm q xs

theorem filter_split_length (q : P → Bool) (xs : List P) :
    (xs.filter q).length + (xs.filter (fun p => ! q p)).length = xs.length := by
  simpa using (filter_split_perm q xs).length_eq

theorem build_perm {g : P → BBox K} : ∀ {fuel : Nat} {xs : List P} {off m : Nat}
    {t : BVHNode K} {ys : List P}, build g fuel xs off m = some (t, ys) → ys.Perm xs := by
  intro fuel
  induction fuel with
  | zero => intro xs off m t ys h; simp [build] at h
  | succ fuel ih =>
    intro xs off m t ys h
    rcases build_succ_some h with ⟨_, _, hy⟩ | ⟨_, l, ls, r, rs, hl, hr, _, hy⟩
    · rw [hy]
    · rw [hy]
      exact ((ih hl).append (ih hr)).trans (filter_split_perm _ xs)

theorem build_length {g : P → BBox K} {fuel : Nat} {xs : List P} {off m : Nat}
    {t : BVHNode K} {ys : List P} (h : build g fuel xs off m = some (t, ys)) :
    ys.length = xs.length := (build_perm h).length_eq

theorem construct_bvh_append (g : P → BBox K) (m : Nat) : ∀ (fuel : Nat) (A X B : List P),
    construct_bvh g fuel (A ++ X ++ B) A.length (A.length + X.length) m
      = (build g fuel X A.length m).map (fun tl => (tl.1, A ++ tl.2 ++ B)) := by
  intro fuel
  induction fuel with
  | zero => intro A X B; simp [construct_bvh, build]
  | succ fuel ih =>
    intro A X B
    unfold construct_bvh build
    simp only [slice_append, scanRange_eq, splitRange_eq]
    by_cases hm : X.length ≤ m
    · simp [hm]
    · simp only [hm, if_false]
      have hlen := filter_split_length (belowSplit g X) X
      have hL : (X.filter (belowSplit g X)).length ≤ X.length := by omega
      have hX : A ++ X ++ B = A ++ X.take (X.filter (belowSplit g X)).length
          ++ (X.drop (X.filter (belowSplit g X)).length ++ B) := by
        conv_lhs => rw [← List.take_append_drop (X.filter (belowSplit g X)).length X]
        simp only [List.append_assoc]
      have hw1 : writeBack (A ++ X ++ B) A.length (X.filter (belowSplit g X))
          = (A ++ X.filter (belowSplit g X) ++ (X.drop (X.filter (belowSplit g X)).length ++ B),
              A.length + (X.filter (belowSplit g X)).length) := by
        rw [hX]
        apply writeBack_append
        simp [List.length_take, hL]
      rw [hw1]
      simp only
      rw [ih A (X.filter (belowSplit g X)) _]
      cases hl : build g fuel (X.filter (belowSplit g X)) A.length m with
      | none => simp
      | some lres =>
        obtain ⟨l, ls⟩ := lres
        have hls := build_length hl
        simp only [Option.map_some']
        have hw2 : writeBack (A ++ ls ++ (X.drop (X.filter (belowSplit g X)).length ++ B))
            (A.length + (X.filter (belowSplit g X)).length)
            (X.filter (fun p => ! belowSplit g X p))
            = ((A ++ ls) ++ X.filter (fun p => ! belowSplit g X p) ++ B,
                (A ++ ls).length + (X.filter (fun p => ! belowSplit g X p)).length) := by
          have e1 : A ++ ls ++ (X.drop (X.filter (belowSplit g X)).length ++ B)
              = (A ++ ls) ++ X.drop (X.filter (belowSplit g X)).length ++ B := by
            simp [List.append_assoc]
          have e2 : A.length + (X.filter (belowSplit g X)).length = (A ++ ls).length := by
            simp [hls]
          rw [e1, e2]
          apply writeBack_append
          simp only [List.length_drop]
          omega
        rw [hw2]
        simp only
        have e3 : A.length + (X.filter (belowSplit g X)).length = (A ++ ls).length := by
          simp [hls]
        rw [e3, ih (A ++ ls) _ B]
        cases hr : build g fuel (X.filter (fun p => ! belowSplit g X p)) (A ++ ls).length m with
        | none => simp
        | some rres =>
          obtain ⟨r, rs⟩ := rres
          simp [List.append_assoc]

theorem prims_decompose (prims : List P) (s e : Nat) (hse : s ≤ e) :
    prims = prims.take s ++ slice prims s e ++ prims.drop e := by
  unfold slice
  have h1 : prims.drop e = (prims.drop s).drop (e - s) := by
    rw [List.drop_drop]
    congr 1
    omega
  rw [h1, List.append_assoc, List.take_append_drop, List.take_append_drop]

theorem slice_length (prims : List P) (s e : Nat) (hse : s ≤ e) (he : e ≤ prims.length) :
    (slice prims s e).length = e - s := by
  simp only [slice, List.length_take, List.length_drop]
  omega

theorem construct_bvh_eq_build (g : P → BBox K) (fuel : Nat) (prims : List P) (s e m : Nat)
    (hse : s ≤ e) (he : e ≤ prims.length) :
    construct_bvh g fuel prims s e m
      = (build g fuel (slice prims s e) s m).map
          (fun tl => (tl.1, prims.take s ++ tl.2 ++ prims.drop e)) := by
  have h := construct_bvh_append g m fuel (prims.take s) (slice prims s e) (prims.drop e)
  rw [← prims_decompose prims s e hse] at h
  have hs : (prims.take s).length = s := by
    simp only [List.length_take]
    omega
  rw [hs, slice_length prims s e hse he] at h
  have : s + (e - s) = e := by omega
  rw [this] at h
  exact h

theorem construct_bvh_root (g : P → BBox K) (fuel : Nat) (prims : List P) (m : Nat) :
    construct_bvh g fuel prims 0 prims.length m
      = build g fuel prims 0 m := by
  rw [construct_bvh_eq_build g fuel prims 0 prims.length m (Nat.zero_le _) (Nat.le_refl _)]
  simp [slice]

end ConstructLemmas

section BoxOrder

variable {K : Type} [LinearOrderedField K]

theorem BBox.within_refl (a : BBox K) : a.within a := by
  cases a <;> simp [BBox.within]

theorem BBox.within_trans {a b c : BBox K} (h1 : a.within b) (h2 : b.within c) :
    a.within c := by
  cases a with
  | empty => simp [BBox.within]
  | box mn mx =>
    cases b with
    | empty => simp [BBox.within] at h1
    | box mn' mx' =>
      cases c with
      | empty => simp [BBox.within] at h2
      | box mn'' mx'' =>
        obtain ⟨h1, h2', h3, h4, h5, h6⟩ := h1
        obtain ⟨g1, g2, g3, g4, g5, g6⟩ := h2
        exact ⟨g1.trans h1, g2.trans h2', g3.trans h3, h4.trans g4, h5.trans g5, h6.trans g6⟩

theorem BBox.within_antisymm {a b : BBox K} (h1 : a.within b) (h2 : b.within a) : a = b := by
  cases a with
  | empty => cases b with
    | empty => rfl
    | box mn mx => simp [BBox.within] at h2
  | box mn mx => cases b with
    | empty => simp [BBox.within] at h1
    | box mn' mx' =>
      obtain ⟨h1, h2', h3, h4, h5, h6⟩ := h1
      obtain ⟨g1, g2, g3, g4, g5, g6⟩ := h2
      obtain ⟨a1, a2, a3⟩ := mn
      obtain ⟨b1, b2, b3⟩ := mx
      obtain ⟨c1, c2, c3⟩ := mn'
      obtain ⟨d1, d2, d3⟩ := mx'
      simp only at h1 h2' h3 h4 h5 h6 g1 g2 g3 g4 g5 g6
      simp only [BBox.box.injEq, Vector3D.mk.injEq]
      exact ⟨⟨le_antisymm g1 h1, le_antisymm g2 h2', le_antisymm g3 h3⟩,
        ⟨le_antisymm h4 g4, le_antisymm h5 g5, le_antisymm h6 g6⟩⟩

theorem BBox.expand_within_iff (a b c : BBox K) :
    (a.expand b).within c ↔ a.within c ∧ b.within c := by
  cases a <;> cases b <;> cases c <;> simp [BBox.expand, BBox.within]
  tauto

theorem BBox.expand_empty (a : BBox K) : a.expand BBox.empty = a := by
  cases a <;> rfl

theorem BBox.foldl_expand_within_iff (bs : List (BBox K)) (a c : BBox K) :
    (bs.foldl BBox.expand a).within c ↔ a.within c ∧ ∀ x ∈ bs, x.within c := by
  induction bs generalizing a with
  | nil => simp
  | cons b bs ih =>
    simp only [List.foldl_cons, ih, BBox.expand_within_iff, List.mem_cons, forall_eq_or_imp]
    tauto

theorem unionBoxes_within_iff (bs : List (BBox K)) (c : BBox K) :
    (unionBoxes bs).within c ↔ ∀ x ∈ bs, x.within c := by
  unfold unionBoxes
  rw [BBox.foldl_expand_within_iff]
  simp [BBox.within]

theorem BBox.eq_of_within_iff {a b : BBox K} (h : ∀ c, a.within c ↔ b.within c) : a = b :=
  BBox.within_antisymm ((h b).2 (BBox.within_refl b)) ((h a).1 (BBox.within_refl a))

variable {P : Type}

theorem rangeBox_within_iff (g : P → BBox K) (xs : List P) (c : BBox K) :
    (rangeBox g xs).within c ↔ ∀ p ∈ xs, (g p).within c := by
  unfold rangeBox
  rw [unionBoxes_within_iff]
  simp

theorem rangeBox_perm (g : P → BBox K) {xs ys : List P} (h : xs.Perm ys) :
    rangeBox g xs = rangeBox g ys := by
  apply BBox.eq_of_within_iff
  intro c
  simp only [rangeBox_within_iff]
  exact ⟨fun hx p hp => hx p (h.mem_iff.2 hp), fun hy p hp => hy p (h.mem_iff.1 hp)⟩

theorem rangeBox_append (g : P → BBox K) (xs ys : List P) :
    rangeBox g (xs ++ ys) = (rangeBox g xs).expand (rangeBox g ys) := by
  apply BBox.eq_of_within_iff
  intro c
  simp only [rangeBox_within_iff, BBox.expand_within_iff, List.mem_append]
  exact ⟨fun h => ⟨fun p hp => h p (Or.inl hp), fun p hp => h p (Or.inr hp)⟩,
    fun h p hp => hp.elim (h.1 p) (h.2 p)⟩

end BoxOrder

section BuildProps

variable {K P : Type} [LinearOrderedField K]

theorem tiles_append {a b c : Nat} {l1 l2 : List (Nat × Nat)} (h1 : tiles a l1 b)
    (h2 : tiles b l2 c) : tiles a (l1 ++ l2) c := by
  induction l1 generalizing a with
  | nil =>
    simp only [tiles] at h1
    subst h1
    simpa using h2
  | cons se rest ih =>
    obtain ⟨s, e⟩ := se
    simp only [tiles, List.cons_append] at h1 ⊢
    exact ⟨h1.1, h1.2.1, ih h1.2.2⟩

theorem tiles_le {a b : Nat} {l : List (Nat × Nat)} (h : tiles a l b) : a ≤ b := by
  induction l generalizing a with
  | nil =>
    simp only [tiles] at h
    omega
  | cons se rest ih =>
    obtain ⟨s, e⟩ := se
    simp only [tiles] at h
    have := ih h.2.2
    omega

theorem tiles_mem_bounds {a b : Nat} {l : List (Nat × Nat)} (h : tiles a l b) :
    ∀ se ∈ l, a ≤ se.1 ∧ se.1 ≤ se.2 ∧ se.2 ≤ b := by
  induction l generalizing a with
  | nil => simp
  | cons se rest ih =>
    obtain ⟨s, e⟩ := se
    simp only [tiles] at h
    intro se' hse'
    rcases List.mem_cons.1 hse' with rfl | hmem
    · have := tiles_le h.2.2
      simp only
      omega
    · have := ih h.2.2 se' hmem
      omega

theorem tiles_count_out {a b : Nat} {l : List (Nat × Nat)} (h : tiles a l b) (i : Nat)
    (hi : i < a ∨ b ≤ i) :
    (l.filter (fun se => decide (se.1 ≤ i ∧ i < se.2))).length = 0 := by
  rw [List.length_eq_zero, List.filter_eq_nil_iff]
  intro se hse
  have := tiles_mem_bounds h se hse
  simp only [decide_eq_true_eq, not_and, not_lt]
  omega

theorem tiles_count_in {a b : Nat} {l : List (Nat × Nat)} (h : tiles a l b) (i : Nat)
    (ha : a ≤ i) (hb : i < b) :
    (l.filter (fun se => decide (se.1 ≤ i ∧ i < se.2))).length = 1 := by
  induction l generalizing a with
  | nil =>
    simp only [tiles] at h
    omega
  | cons se rest ih =>
    obtain ⟨s, e⟩ := se
    simp only [tiles] at h
    obtain ⟨hs, hse, hrest⟩ := h
    by_cases hie : i < e
    · have h0 := tiles_count_out hrest i (Or.inl hie)
      have : decide (s ≤ i ∧ i < e) = true := by
        simp only [decide_eq_true_eq]
        omega
      simp only [List.filter_cons, this, if_true, List.length_cons, h0]
    · have h1 := ih hrest (by omega)
      have : decide (s ≤ i ∧ i < e) = false := by
        simp only [decide_eq_false_iff_not, not_and, not_lt]
        omega
      rw [List.filter_cons, this]
      simpa using h1

theorem build_root {g : P → BBox K} {fuel : Nat} {xs : List P} {off m : Nat}
    {t : BVHNode K} {ys : List P} (h : build g fuel xs off m = some (t, ys)) :
    t.start = off ∧ t.end_ = off + xs.length ∧ t.bb = rangeBox g xs := by
  cases fuel with
  | zero => simp [build] at h
  | succ fuel =>
    rcases build_succ_some h with ⟨_, ht, _⟩ | ⟨_, l, ls, r, rs, _, _, ht, _⟩ <;>
      simp [ht, BVHNode.start, BVHNode.end_, BVHNode.bb]

theorem build_tiles {g : P → BBox K} : ∀ {fuel : Nat} {xs : List P} {off m : Nat}
    {t : BVHNode K} {ys : List P}, build g fuel xs off m = some (t, ys) →
    tiles off t.leafRanges (off + xs.length) := by
  intro fuel
  induction fuel with
  | zero => intro xs off m t ys h; simp [build] at h
  | succ fuel ih =>
    intro xs off m t ys h
    rcases build_succ_some h with ⟨_, ht, _⟩ | ⟨_, l, ls, r, rs, hl, hr, ht, _⟩
    · simp [ht, BVHNode.leafRanges, tiles]
    · rw [ht]
      simp only [BVHNode.leafRanges]
      have h2 := ih hr
      rw [Nat.add_assoc, filter_split_length] at h2
      exact tiles_append (ih hl) h2

theorem build_leaf_size {g : P → BBox K} : ∀ {fuel : Nat} {xs : List P} {off m : Nat}
    {t : BVHNode K} {ys : List P}, build g fuel xs off m = some (t, ys) →
    ∀ se ∈ t.leafRanges, se.2 - se.1 ≤ m := by
  intro fuel
  induction fuel with
  | zero => intro xs off m t ys h; simp [build] at h
  | succ fuel ih =>
    intro xs off m t ys h
    rcases build_succ_some h with ⟨hm, ht, _⟩ | ⟨_, l, ls, r, rs, hl, hr, ht, _⟩
    · rw [ht]
      simp only [BVHNode.leafRanges, List.mem_singleton]
      intro se hse
      rw [hse]
      simp only
      omega
    · rw [ht]
      simp only [BVHNode.leafRanges, List.mem_append]
      intro se hse
      exact hse.elim (ih hl se) (ih hr se)

theorem build_children {g : P → BBox K} : ∀ {fuel : Nat} {xs : List P} {off m : Nat}
    {t : BVHNode K} {ys : List P}, build g fuel xs off m = some (t, ys) →
    ∀ n ∈ t.nodes, ∀ b s e l r, n = BVHNode.inner b s e l r → b = l.bb.expand r.bb := by
  intro fuel
  induction fuel with
  | zero => intro xs off m t ys h; simp [build] at h
  | succ fuel ih =>
    intro xs off m t ys h
    rcases build_succ_some h with ⟨hm, ht, _⟩ | ⟨_, l, ls, r, rs, hl, hr, ht, _⟩
    · rw [ht]
      simp only [BVHNode.nodes, List.mem_singleton]
      intro n hn b s e l r hn'
      rw [hn] at hn'
      cases hn'
    · rw [ht]
      simp only [BVHNode.nodes, List.mem_cons, List.mem_append]
      intro n hn b s e l' r' hn'
      rcases hn with hn | hn | hn
      · rw [hn] at hn'
        simp only [BVHNode.inner.injEq] at hn'
        obtain ⟨hb, _, _, hl', hr'⟩ := hn'
        rw [← hb, ← hl', ← hr', (build_root hl).2.2, (build_root hr).2.2, ← rangeBox_append]
        exact (rangeBox_perm g (filter_split_perm _ xs)).symm
      · exact ih hl n hn b s e l' r' hn'
      · exact ih hr n hn b s e l' r' hn'

theorem subtreePrims_inner (prims : List P) (b : BBox K) (s e : Nat) (l r : BVHNode K) :
    (BVHNode.inner b s e l r).subtreePrims prims
      = l.subtreePrims prims ++ r.subtreePrims prims := by
  simp [BVHNode.subtreePrims, BVHNode.leafRanges]

theorem build_subtree {g : P → BBox K} : ∀ {fuel : Nat} {xs : List P} {off m : Nat}
    {t : BVHNode K} {ys : List P}, build g fuel xs off m = some (t, ys) →
    ∀ A B : List P, A.length = off → t.subtreePrims (A ++ ys ++ B) = ys := by
  intro fuel
  induction fuel with
  | zero => intro xs off m t ys h; simp [build] at h
  | succ fuel ih =>
    intro xs off m t ys h A B hA
    rcases build_succ_some h with ⟨hm, ht, hy⟩ | ⟨_, l, ls, r, rs, hl, hr, ht, hy⟩
    · rw [ht, hy, ← hA]
      simp only [BVHNode.subtreePrims, BVHNode.leafRanges, List.flatMap_cons, List.flatMap_nil,
        List.append_nil, slice_append]
    · rw [ht, hy, subtreePrims_inner]
      have e1 : A ++ (ls ++ rs) ++ B = A ++ ls ++ (rs ++ B) := by simp [List.append_assoc]
      have e2 : A ++ (ls ++ rs) ++ B = (A ++ ls) ++ rs ++ B := by simp [List.append_assoc]
      have h1 := ih hl A (rs ++ B) hA
      have h2 := ih hr (A ++ ls) B (by simp [hA, build_length hl])
      rw [← e1] at h1
      rw [← e2] at h2
      rw [h1, h2]

theorem build_tight {g : P → BBox K} : ∀ {fuel : Nat} {xs : List P} {off m : Nat}
    {t : BVHNode K} {ys : List P}, build g fuel xs off m = some (t, ys) →
    ∀ A B : List P, A.length = off →
      ∀ n ∈ t.nodes, n.bb = rangeBox g (n.subtreePrims (A ++ ys ++ B)) := by
  intro fuel
  induction fuel with
  | zero => intro xs off m t ys h; simp [build] at h
  | succ fuel ih =>
    intro xs off m t ys h A B hA
    have hroot : t.bb = rangeBox g (t.subtreePrims (A ++ ys ++ B)) := by
      rw [build_subtree h A B hA, (build_root h).2.2]
      exact (rangeBox_perm g (build_perm h)).symm
    rcases build_succ_some h with ⟨hm, ht, hy⟩ | ⟨_, l, ls, r, rs, hl, hr, ht, hy⟩
    · intro n hn
      rw [ht] at hn
      simp only [BVHNode.nodes, List.mem_singleton] at hn
      rw [hn, ← ht]
      exact hroot
    · intro n hn
      rw [ht] at hn
      simp only [BVHNode.nodes, List.mem_cons, List.mem_append] at hn
      have e1 : A ++ (ls ++ rs) ++ B = A ++ ls ++ (rs ++ B) := by simp [List.append_assoc]
      have e2 : A ++ (ls ++ rs) ++ B = (A ++ ls) ++ rs ++ B := by simp [List.append_assoc]
      rcases hn with hn | hn | hn
      · rw [hn, ← ht]
        exact hroot
      · have := ih hl A (rs ++ B) hA n hn
        rw [hy, e1]
        exact this
      · have := ih hr (A ++ ls) B (by simp [hA, build_length hl]) n hn
        rw [hy, e2]
        exact this

end BuildProps

section ConstructTheorems

variable {K P : Type} [LinearOrderedField K]

/-- C1: in every tree that `construct_bvh` returns, each leaf range `[start, end)` is a
proper range and holds at most `max_leaf_size` primitives. -/
theorem construct_bvh_leaf_size (g : P → BBox K) (fuel : Nat) (prims : List P)
    (max_leaf_size : Nat) (root : BVHNode K) (final : List P)
    (h : construct_bvh g fuel prims 0 prims.length max_leaf_size = some (root, final)) :
    ∀ se ∈ root.leafRanges,
      se.1 ≤ se.2 ∧ se.2 - se.1 ≤ max_leaf_size ∧
        (slice final se.1 se.2).length ≤ max_leaf_size := by
  rw [construct_bvh_root] at h
  intro se hse
  have hb := tiles_mem_bounds (build_tiles h) se hse
  have hsz := build_leaf_size h se hse
  refine ⟨hb.2.1, hsz, ?_⟩
  have : (slice final se.1 se.2).length ≤ se.2 - se.1 := by
    simp only [slice, List.length_take]
    omega
  omega

/-- The witness of C1: the nine unit spheres on the x-axis with `max_leaf_size = 2` give a
tree with five leaves, none of which holds more than two primitives. -/
theorem construct_bvh_leaf_size_witness :
    ∃ root final,
      construct_bvh Sphere.get_bbox 4 nineSpheres 0 nineSpheres.length 2 = some (root, final) ∧
      5 ≤ root.leafRanges.length ∧
      ∀ se ∈ root.leafRanges,
        se.1 ≤ se.2 ∧ se.2 - se.1 ≤ 2 ∧ (slice final se.1 se.2).length ≤ 2 := by
  have hlen : (construct_bvh Sphere.get_bbox 4 nineSpheres 0 nineSpheres.length 2).map
      (fun p => p.1.leafRanges.length) = some 5 := by decide!
  cases h : construct_bvh Sphere.get_bbox 4 nineSpheres 0 nineSpheres.length 2 with
  | none => simp [h] at hlen
  | some res =>
    obtain ⟨root, final⟩ := res
    simp only [h, Option.map_some', Option.some.injEq] at hlen
    exact ⟨root, final, rfl, by omega,
      construct_bvh_leaf_size Sphere.get_bbox 4 nineSpheres 2 root final h⟩

/-- C2: when the constructor returns, the accelerator's primitive sequence is a permutation
of the input, the leaf ranges read left to right tile `[0, n)`, every position lies in
exactly one leaf range, and the leaves' primitives in order are the whole sequence. -/
theorem construct_bvh_partition (g : P → BBox K) (fuel : Nat) (prims : List P)
    (max_leaf_size : Nat) (acc : BVHAccel P K)
    (h : BVHAccel.new g fuel prims max_leaf_size = some acc) :
    acc.primitives.Perm prims ∧
    tiles 0 acc.root.leafRanges prims.length ∧
    (∀ i, i < prims.length →
      (acc.root.leafRanges.filter (fun se => decide (se.1 ≤ i ∧ i < se.2))).length = 1) ∧
    acc.root.subtreePrims acc.primitives = acc.primitives := by
  unfold BVHAccel.new at h
  simp only [construct_bvh_root] at h
  cases hb : build g fuel prims 0 max_leaf_size with
  | none => simp [hb] at h
  | some res =>
    obtain ⟨root, final⟩ := res
    simp only [hb, Option.some.injEq] at h
    subst h
    have ht := build_tiles hb
    simp only [Nat.zero_add] at ht
    refine ⟨build_perm hb, ht, fun i hi => tiles_count_in ht i (Nat.zero_le _) hi, ?_⟩
    simpa using build_subtree hb [] [] rfl

/-- The witness of C2: the constructor on the nine unit spheres. -/
theorem construct_bvh_partition_witness :
    ∃ acc : BVHAccel (Sphere ℚ) ℚ,
      BVHAccel.new Sphere.get_bbox 4 nineSpheres 2 = some acc ∧
      acc.primitives.Perm nineSpheres ∧
      tiles 0 acc.root.leafRanges nineSpheres.length ∧
      (∀ i, i < nineSpheres.length →
        (acc.root.leafRanges.filter (fun se => decide (se.1 ≤ i ∧ i < se.2))).length = 1) ∧
      acc.root.subtreePrims acc.primitives = acc.primitives := by
  have hsome : (BVHAccel.new Sphere.get_bbox 4 nineSpheres 2).isSome = true := by decide!
  cases h : BVHAccel.new Sphere.get_bbox 4 nineSpheres 2 with
  | none => simp [h] at hsome
  | some acc => exact ⟨acc, rfl, construct_bvh_partition Sphere.get_bbox 4 nineSpheres 2 acc h⟩

theorem rangeCentroidBox_const (g : P → BBox K) (xs : List P) (c : Vector3D K)
    (hne : xs ≠ []) (hc : ∀ p ∈ xs, (g p).centroid = c) :
    rangeCentroidBox g xs = BBox.box c c := by
  apply BBox.eq_of_within_iff
  intro b
  unfold rangeCentroidBox
  rw [unionBoxes_within_iff]
  constructor
  · intro h
    obtain ⟨p, hp⟩ := List.exists_mem_of_ne_nil xs hne
    have := h (BBox.box (g p).centroid (g p).centroid) (List.mem_map.2 ⟨p, hp, rfl⟩)
    rwa [hc p hp] at this
  · intro h x hx
    obtain ⟨p, hp, rfl⟩ := List.mem_map.1 hx
    rwa [hc p hp]

theorem belowSplit_const (g : P → BBox K) (xs : List P) (c : Vector3D K)
    (hne : xs ≠ []) (hc : ∀ p ∈ xs, (g p).centroid = c) :
    ∀ p ∈ xs, belowSplit g xs p = false := by
  intro p hp
  have hmid : ∀ x : K, (x + x) / 2 = x := fun x => by ring
  unfold belowSplit
  rw [rangeCentroidBox_const g xs c hne hc, hc p hp]
  simp only [decide_eq_false_iff_not, not_lt]
  have : (BBox.box c c).centroid = c := by
    obtain ⟨c1, c2, c3⟩ := c
    show Vector3D.divs (⟨c1 + c1, c2 + c2, c3 + c3⟩ : Vector3D K) 2 = _
    simp [Vector3D.divs, hmid]
  rw [this]

theorem build_same_centroid (g : P → BBox K) (xs : List P) (c : Vector3D K) (m : Nat)
    (hm : m < xs.length) (hc : ∀ p ∈ xs, (g p).centroid = c) :
    ∀ fuel off, build g fuel xs off m = none := by
  have hne : xs ≠ [] := by
    intro h
    rw [h] at hm
    simp at hm
  have hb := belowSplit_const g xs c hne hc
  have hl : xs.filter (belowSplit g xs) = [] := by
    rw [List.filter_eq_nil_iff]
    intro p hp
    simp [hb p hp]
  have hr : xs.filter (fun p => ! belowSplit g xs p) = xs := by
    rw [List.filter_eq_self]
    intro p hp
    simp [hb p hp]
  intro fuel
  induction fuel with
  | zero => intro off; rfl
  | succ fuel ih =>
    intro off
    unfold build
    simp only [Nat.not_le.2 hm, if_false, hl, hr, ih]
    cases build g fuel [] off m <;> rfl

/-- On primitives that all share one bounding-box centroid and are more than
`max_leaf_size`, `construct_bvh` never returns, whatever the recursion budget. -/
theorem construct_bvh_same_centroid (g : P → BBox K) (prims : List P) (c : Vector3D K)
    (m : Nat) (hm : m < prims.length) (hc : ∀ p ∈ prims, (g p).centroid = c) (fuel : Nat) :
    construct_bvh g fuel prims 0 prims.length m = none := by
  rw [construct_bvh_root]
  exact build_same_centroid g prims c m hm hc fuel 0

/-- C5 (the code at the failing input): on two spheres that share their centre, with
`max_leaf_size = 1`, `construct_bvh` returns for no recursion budget: the right recursive
call is made on the whole range again. -/
theorem construct_bvh_twin_diverges (fuel : Nat) :
    construct_bvh Sphere.get_bbox fuel twinSpheres 0 twinSpheres.length 1 = none := by
  apply construct_bvh_same_centroid Sphere.get_bbox twinSpheres (unitSphereAt 0).get_bbox.centroid
  · decide
  · intro p hp
    simp only [twinSpheres, List.mem_cons, List.mem_singleton, List.not_mem_nil, or_false,
      or_self] at hp
    rw [hp]

/-- C6: in every tree that `construct_bvh` returns, the box of each internal node is the
union (`expand`) of the boxes of its two children. -/
theorem construct_bvh_children_union (g : P → BBox K) (fuel : Nat) (prims : List P)
    (start end_ max_leaf_size : Nat) (root : BVHNode K) (final : List P)
    (hse : start ≤ end_) (he : end_ ≤ prims.length)
    (h : construct_bvh g fuel prims start end_ max_leaf_size = some (root, final)) :
    ∀ n ∈ root.nodes, ∀ b s e l r, n = BVHNode.inner b s e l r → b = l.bb.expand r.bb := by
  rw [construct_bvh_eq_build g fuel prims start end_ max_leaf_size hse he] at h
  cases hb : build g fuel (slice prims start end_) start max_leaf_size with
  | none => simp [hb] at h
  | some res =>
    obtain ⟨t, ys⟩ := res
    simp only [hb, Option.map_some', Option.some.injEq, Prod.mk.injEq] at h
    rw [← h.1]
    exact build_children hb

/-- The witness of C6: the tree over the nine unit spheres has internal nodes, and each
one's box is the union of its children's boxes. -/
theorem construct_bvh_children_union_witness :
    ∃ root final,
      construct_bvh Sphere.get_bbox 4 nineSpheres 0 9 2 = some (root, final) ∧
      (∃ b s e l r, root = BVHNode.inner b s e l r) ∧
      ∀ n ∈ root.nodes, ∀ b s e l r, n = BVHNode.inner b s e l r → b = l.bb.expand r.bb := by
  have hsome : (construct_bvh Sphere.get_bbox 4 nineSpheres 0 9 2).map
      (fun p => p.1.leafRanges.length) = some 5 := by decide!
  cases h : construct_bvh Sphere.get_bbox 4 nineSpheres 0 9 2 with
  | none => simp [h] at hsome
  | some res =>
    obtain ⟨root, final⟩ := res
    simp only [h, Option.map_some', Option.some.injEq] at hsome
    refine ⟨root, final, rfl, ?_,
      construct_bvh_children_union Sphere.get_bbox 4 nineSpheres 0 9 2 root final
        (by decide) (by decide) h⟩
    cases root with
    | leaf b s e => simp [BVHNode.leafRanges] at hsome
    | inner b s e l r => exact ⟨b, s, e, l, r, rfl⟩

/-- C7: in every tree that `construct_bvh` returns, the box of each node (leaf or internal)
is the union of the boxes of the primitives that lie, in the final sequence, in the leaf
ranges of its subtree: it contains each of these boxes and lies within every box that
does. -/
theorem construct_bvh_box_tight (g : P → BBox K) (fuel : Nat) (prims : List P)
    (start end_ max_leaf_size : Nat) (root : BVHNode K) (final : List P)
    (hse : start ≤ end_) (he : end_ ≤ prims.length)
    (h : construct_bvh g fuel prims start end_ max_leaf_size = some (root, final)) :
    ∀ n ∈ root.nodes,
      n.bb = rangeBox g (n.subtreePrims final) ∧
      (∀ p ∈ n.subtreePrims final, (g p).within n.bb) ∧
      (∀ b : BBox K, (∀ p ∈ n.subtreePrims final, (g p).within b) → n.bb.within b) := by
  rw [construct_bvh_eq_build g fuel prims start end_ max_leaf_size hse he] at h
  cases hb : build g fuel (slice prims start end_) start max_leaf_size with
  | none => simp [hb] at h
  | some res =>
    obtain ⟨t, ys⟩ := res
    simp only [hb, Option.map_some', Option.some.injEq, Prod.mk.injEq] at h
    rw [← h.1, ← h.2]
    intro n hn
    have hA : (prims.take start).length = start := by
      simp only [List.length_take]
      omega
    have heq := build_tight hb (prims.take start) (prims.drop end_) hA n hn
    refine ⟨heq, ?_, ?_⟩
    · rw [heq]
      exact (rangeBox_within_iff g _ _).1 (BBox.within_refl _)
    · intro b hbx
      rw [heq]
      exact (rangeBox_within_iff g _ _).2 hbx

/-- The witness of C7: the tree over the nine unit spheres. -/
theorem construct_bvh_box_tight_witness :
    ∃ root final,
      construct_bvh Sphere.get_bbox 4 nineSpheres 0 9 2 = some (root, final) ∧
      ∀ n ∈ root.nodes,
        n.bb = rangeBox Sphere.get_bbox (n.subtreePrims final) ∧
        (∀ p ∈ n.subtreePrims final, (Sphere.get_bbox p).within n.bb) ∧
        (∀ b : BBox ℚ, (∀ p ∈ n.subtreePrims final, (Sphere.get_bbox p).within b) →
          n.bb.within b) := by
  have hsome : (construct_bvh Sphere.get_bbox 4 nineSpheres 0 9 2).isSome = true := by decide!
  cases h : construct_bvh Sphere.get_bbox 4 nineSpheres 0 9 2 with
  | none => simp [h] at hsome
  | some res =>
    obtain ⟨root, final⟩ := res
    exact ⟨root, final, rfl,
      construct_bvh_box_tight Sphere.get_bbox 4 nineSpheres 0 9 2 root final
        (by decide) (by decide) h⟩

end ConstructTheorems

section SphereTheorems

variable {K : Type} [LinearOrderedField K]

theorem Sphere.qa_pos (r : Ray K) (hd : r.d ≠ ⟨0, 0, 0⟩) : 0 < Sphere.qa r := by
  obtain ⟨o, ⟨d1, d2, d3⟩, mn, mx⟩ := r
  simp only [Sphere.qa, dot]
  simp only [ne_eq, Vector3D.mk.injEq, not_and] at hd
  by_contra hle
  have h1 := mul_self_nonneg d1
  have h2 := mul_self_nonneg d2
  have h3 := mul_self_nonneg d3
  have e1 : d1 * d1 = 0 := by linarith
  have e2 : d2 * d2 = 0 := by linarith
  have e3 : d3 * d3 = 0 := by linarith
  exact hd (mul_self_eq_zero.1 e1) (mul_self_eq_zero.1 e2) (mul_self_eq_zero.1 e3)

/-- The squared distance of a ray point from the centre, through the coefficients of the
quadratic of `Sphere::test`. -/
theorem Sphere.dist_at (s : Sphere K) (r : Ray K) (t : K) :
    dot (r.at_ t - s.o) (r.at_ t - s.o)
      = Sphere.qa r * t * t + Sphere.qb s r * t + Sphere.qc s r + s.r2 := by
  obtain ⟨⟨o1, o2, o3⟩, ⟨d1, d2, d3⟩, mn, mx⟩ := r
  obtain ⟨⟨c1, c2, c3⟩, rad, rad2, bs⟩ := s
  show (o1 + d1 * t - c1) * (o1 + d1 * t - c1) + (o2 + d2 * t - c2) * (o2 + d2 * t - c2)
      + (o3 + d3 * t - c3) * (o3 + d3 * t - c3)
    = (d1 * d1 + d2 * d2 + d3 * d3) * t * t
      + 2 * ((o1 - c1) * d1 + (o2 - c2) * d2 + (o3 - c3) * d3) * t
      + ((o1 - c1) * (o1 - c1) + (o2 - c2) * (o2 - c2) + (o3 - c3) * (o3 - c3) - rad2) + rad2
  ring

/-- What `Sphere::test` returns and writes when the discriminant is not negative. -/
theorem Sphere.test_of_nonneg (sqrt : K → K) (s : Sphere K) (r : Ray K) (t1 t2 : K)
    (hδ : 0 ≤ Sphere.delta s r) :
    Sphere.test sqrt s r t1 t2
      = (decide (¬ ((-Sphere.qb s r - sqrt (Sphere.delta s r)) / (2 * Sphere.qa r) < r.min_t ∨
            (-Sphere.qb s r + sqrt (Sphere.delta s r)) / (2 * Sphere.qa r) > r.max_t)),
         min ((-Sphere.qb s r - sqrt (Sphere.delta s r)) / (2 * Sphere.qa r))
             ((-Sphere.qb s r + sqrt (Sphere.delta s r)) / (2 * Sphere.qa r)),
         max ((-Sphere.qb s r - sqrt (Sphere.delta s r)) / (2 * Sphere.qa r))
             ((-Sphere.qb s r + sqrt (Sphere.delta s r)) / (2 * Sphere.qa r))) := by
  unfold Sphere.test
  simp only [not_lt.2 hδ, if_false]
  split_ifs with h <;> simp [h]

theorem Sphere.roots_le (sqrt : K → K) (s : Sphere K) (r : Ray K) (hd : r.d ≠ ⟨0, 0, 0⟩)
    (hs0 : 0 ≤ sqrt (Sphere.delta s r)) :
    (-Sphere.qb s r - sqrt (Sphere.delta s r)) / (2 * Sphere.qa r)
      ≤ (-Sphere.qb s r + sqrt (Sphere.delta s r)) / (2 * Sphere.qa r) := by
  have ha := Sphere.qa_pos r hd
  apply div_le_div_of_nonneg_right _ (by linarith)
  linarith

/-- The values that `Sphere::test` writes are ordered, factor the quadratic, and give ray
points on the surface. -/
theorem Sphere.test_roots_aux (sqrt : K → K) (s : Sphere K) (r : Ray K) (t1 t2 : K)
    (hd : r.d ≠ ⟨0, 0, 0⟩) (hδ : 0 ≤ Sphere.delta s r)
    (hs0 : 0 ≤ sqrt (Sphere.delta s r))
    (hs : sqrt (Sphere.delta s r) * sqrt (Sphere.delta s r) = Sphere.delta s r) :
    (Sphere.test sqrt s r t1 t2).2.1 ≤ (Sphere.test sqrt s r t1 t2).2.2 ∧
    (∀ t : K, Sphere.qa r * t * t + Sphere.qb s r * t + Sphere.qc s r
      = Sphere.qa r * (t - (Sphere.test sqrt s r t1 t2).2.1)
          * (t - (Sphere.test sqrt s r t1 t2).2.2)) ∧
    dot (r.at_ (Sphere.test sqrt s r t1 t2).2.1 - s.o)
        (r.at_ (Sphere.test sqrt s r t1 t2).2.1 - s.o) = s.r2 ∧
    dot (r.at_ (Sphere.test sqrt s r t1 t2).2.2 - s.o)
        (r.at_ (Sphere.test sqrt s r t1 t2).2.2 - s.o) = s.r2 := by
  have ha := Sphere.qa_pos r hd
  have hle := Sphere.roots_le sqrt s r hd hs0
  rw [Sphere.test_of_nonneg sqrt s r t1 t2 hδ]
  simp only [min_eq_left hle, max_eq_right hle]
  have hfac : ∀ t : K, Sphere.qa r * t * t + Sphere.qb s r * t + Sphere.qc s r
      = Sphere.qa r * (t - (-Sphere.qb s r - sqrt (Sphere.delta s r)) / (2 * Sphere.qa r))
          * (t - (-Sphere.qb s r + sqrt (Sphere.delta s r)) / (2 * Sphere.qa r)) := by
    intro t
    have hdel : Sphere.delta s r
        = Sphere.qb s r * Sphere.qb s r - 4 * Sphere.qa r * Sphere.qc s r := rfl
    have ha' : Sphere.qa r ≠ 0 := ne_of_gt ha
    have key : sqrt (Sphere.delta s r) * sqrt (Sphere.delta s r)
        = Sphere.qb s r * Sphere.qb s r - 4 * Sphere.qa r * Sphere.qc s r := by rw [hs, hdel]
    field_simp
    linear_combination (Sphere.qa r) * key
  refine ⟨hle, hfac, ?_, ?_⟩
  · rw [Sphere.dist_at, hfac]
    simp
  · rw [Sphere.dist_at, hfac]
    simp

/-- C9 (amended): over exact arithmetic, for a ray with non-zero direction, when the
discriminant is not negative (and `sqrt` is exact on it), `Sphere::test`
writes `t1 ≤ t2`, the two roots of `a t^2 + b t + c`, and the two ray points at `t1` and
`t2` lie on the sphere's surface. -/
theorem sphere_test_roots (sqrt : K → K) (s : Sphere K) (r : Ray K) (t1 t2 : K)
    (hd : r.d ≠ ⟨0, 0, 0⟩) (hδ : 0 ≤ Sphere.delta s r)
    (hs0 : 0 ≤ sqrt (Sphere.delta s r))
    (hs : sqrt (Sphere.delta s r) * sqrt (Sphere.delta s r) = Sphere.delta s r) :
    (Sphere.test sqrt s r t1 t2).2.1 ≤ (Sphere.test sqrt s r t1 t2).2.2 ∧
    (∀ t : K, Sphere.qa r * t * t + Sphere.qb s r * t + Sphere.qc s r
      = Sphere.qa r * (t - (Sphere.test sqrt s r t1 t2).2.1)
          * (t - (Sphere.test sqrt s r t1 t2).2.2)) ∧
    dot (r.at_ (Sphere.test sqrt s r t1 t2).2.1 - s.o)
        (r.at_ (Sphere.test sqrt s r t1 t2).2.1 - s.o) = s.r2 ∧
    dot (r.at_ (Sphere.test sqrt s r t1 t2).2.2 - s.o)
        (r.at_ (Sphere.test sqrt s r t1 t2).2.2 - s.o) = s.r2 :=
  Sphere.test_roots_aux sqrt s r t1 t2 hd hδ hs0 hs

/-- The witness of C9 (amended): the sphere at the origin with `r2 = 4` and the ray from `(0,0,-10)`
in direction `(0,0,1)` give `t1 = 8` and `t2 = 12`, on doubles as well. -/
theorem sphere_test_roots_witness :
    OnDoubles.test originSphere.toDbl (axisRay 100).toDbl (Dbl.fin false 0) (Dbl.fin false 0)
      = (true, Dbl.fin false 8, Dbl.fin false 12) ∧
    (Sphere.test qsqrt originSphere (axisRay 100) 0 0).2 = (8, 12) ∧
    ((Sphere.test qsqrt originSphere (axisRay 100) 0 0).2.1
        ≤ (Sphere.test qsqrt originSphere (axisRay 100) 0 0).2.2 ∧
      (∀ t : ℚ, Sphere.qa (axisRay 100) * t * t + Sphere.qb originSphere (axisRay 100) * t
          + Sphere.qc originSphere (axisRay 100)
        = Sphere.qa (axisRay 100) * (t - (Sphere.test qsqrt originSphere (axisRay 100) 0 0).2.1)
            * (t - (Sphere.test qsqrt originSphere (axisRay 100) 0 0).2.2)) ∧
      dot ((axisRay 100).at_ (Sphere.test qsqrt originSphere (axisRay 100) 0 0).2.1
            - originSphere.o)
          ((axisRay 100).at_ (Sphere.test qsqrt originSphere (axisRay 100) 0 0).2.1
            - originSphere.o) = originSphere.r2 ∧
      dot ((axisRay 100).at_ (Sphere.test qsqrt originSphere (axisRay 100) 0 0).2.2
            - originSphere.o)
          ((axisRay 100).at_ (Sphere.test qsqrt originSphere (axisRay 100) 0 0).2.2
            - originSphere.o) = originSphere.r2) :=
  ⟨by decide!, by decide!,
    sphere_test_roots qsqrt originSphere (axisRay 100) 0 0 (by decide!) (by decide!)
      (by decide!) (by decide!)⟩

/-- C8 (the code at the failing input): for the sphere at the origin with `r2 = 4` and the
ray from `(0,0,-10)` in direction `(0,0,1)` with interval `[0, 10]`, the discriminant is not
negative and the near root `8` lies in the interval, and yet `Sphere::test`,
`Sphere::has_intersection` and `Sphere::intersect` all reject: the far root `12` is beyond
`max_t`. -/
theorem sphere_test_far_root_rejects :
    0 ≤ Sphere.delta originSphere (axisRay 10) ∧
    Sphere.test qsqrt originSphere (axisRay 10) 0 0 = (false, 8, 12) ∧
    (axisRay 10).min_t ≤ 8 ∧ 8 ≤ (axisRay 10).max_t ∧
    Sphere.has_intersection qsqrt originSphere (axisRay 10) = (false, axisRay 10) ∧
    (Sphere.intersect qsqrt originSphere (axisRay 10) blankRecord).1 = false := by
  decide!

/-- C10 (amended): over exact arithmetic, for a ray with `min_t ≥ 0` whose origin is strictly outside the sphere and whose
direction points away from it, `Sphere::test`, `Sphere::has_intersection` and
`Sphere::intersect` return false and leave the ray (so `max_t`) and the record unchanged.
Of `sqrt` only a non-negative result on a non-negative discriminant is used. -/
theorem sphere_away_no_hit (sqrt : K → K) (s : Sphere K) (r : Ray K) (t1 t2 : K)
    (i : Intersection (Sphere K) K)
    (hmin : 0 ≤ r.min_t)
    (_hout : s.r2 < dot (r.o - s.o) (r.o - s.o))
    (haway : 0 < dot r.d (r.o - s.o))
    (hsqrt : 0 ≤ Sphere.delta s r → 0 ≤ sqrt (Sphere.delta s r)) :
    (Sphere.test sqrt s r t1 t2).1 = false ∧
    Sphere.has_intersection sqrt s r = (false, r) ∧
    Sphere.intersect sqrt s r i = (false, r, i) := by
  have hd : r.d ≠ ⟨0, 0, 0⟩ := by
    intro h
    rw [h] at haway
    simp [dot] at haway
  have ha := Sphere.qa_pos r hd
  have hb : 0 < Sphere.qb s r := by
    have : Sphere.qb s r = 2 * dot r.d (r.o - s.o) := by
      simp only [Sphere.qb, dot]
      ring
    rw [this]
    linarith
  have htest : ∀ u1 u2 : K, (Sphere.test sqrt s r u1 u2).1 = false := by
    intro u1 u2
    by_cases hδ : 0 ≤ Sphere.delta s r
    · rw [Sphere.test_of_nonneg sqrt s r u1 u2 hδ]
      have hs := hsqrt hδ
      have hneg : (-Sphere.qb s r - sqrt (Sphere.delta s r)) / (2 * Sphere.qa r) < 0 :=
        div_neg_of_neg_of_pos (by linarith) (by linarith)
      have : (-Sphere.qb s r - sqrt (Sphere.delta s r)) / (2 * Sphere.qa r) < r.min_t :=
        lt_of_lt_of_le hneg hmin
      simp [this]
    · unfold Sphere.test
      simp [not_le.1 hδ]
  refine ⟨htest t1 t2, ?_, ?_⟩
  · unfold Sphere.has_intersection
    simp [htest 0 0]
  · unfold Sphere.intersect
    simp [htest 0 0]

/-- The witness of C10 (amended): the sphere at the origin with `r2 = 4` and the ray from `(0,0,-10)`
in direction `(0,0,-1)`.  The code on doubles answers the same on this input. -/
theorem sphere_away_no_hit_witness :
    OnDoubles.has_intersection originSphere.toDbl awayRay.toDbl = (false, awayRay.toDbl) ∧
    (Sphere.test qsqrt originSphere awayRay 0 0).1 = false ∧
    Sphere.has_intersection qsqrt originSphere awayRay = (false, awayRay) ∧
    Sphere.intersect qsqrt originSphere awayRay blankRecord = (false, awayRay, blankRecord) :=
  ⟨by decide!,
    sphere_away_no_hit qsqrt originSphere awayRay 0 0 blankRecord (by decide!) (by decide!)
      (by decide!) (fun _ => by decide!)⟩

end SphereTheorems

section Slab

variable {K : Type} [LinearOrderedField K]

theorem BBox.fin_le_fin {x y : K} : BBox.fin x ≤ BBox.fin y ↔ x ≤ y := by
  simp [BBox.fin]

theorem BBox.fin_lt_fin {x y : K} : BBox.fin x < BBox.fin y ↔ x < y := by
  simp [BBox.fin]

theorem BBox.fin_le_top (x : K) :
    BBox.fin x ≤ ((⊤ : WithTop K) : WithBot (WithTop K)) := by
  simp [BBox.fin]

theorem BBox.slab_sound (lo hi o d t : K) (h1 : lo ≤ o + d * t) (h2 : o + d * t ≤ hi) :
    ∃ a b, BBox.slab lo hi o d = some (a, b) ∧ a ≤ BBox.fin t ∧ BBox.fin t ≤ b := by
  unfold BBox.slab
  by_cases hd : d = 0
  · subst hd
    simp only [zero_mul, add_zero] at h1 h2
    simp only [if_true, h1, h2, and_self]
    exact ⟨_, _, rfl, bot_le, BBox.fin_le_top t⟩
  · simp only [hd, if_false]
    refine ⟨_, _, rfl, ?_, ?_⟩
    · rw [BBox.fin_le_fin]
      rcases lt_or_gt_of_ne hd with hneg | hpos
      · apply min_le_of_right_le
        rw [div_le_iff_of_neg hneg]
        linarith
      · apply min_le_of_left_le
        rw [div_le_iff₀ hpos]
        linarith
    · rw [BBox.fin_le_fin]
      rcases lt_or_gt_of_ne hd with hneg | hpos
      · apply le_max_of_le_left
        rw [le_div_iff_of_neg hneg]
        linarith
      · apply le_max_of_le_right
        rw [le_div_iff₀ hpos]
        linarith

/-- The slab test `BBox.intersect` never misses: when the ray point at `t` lies in the box,
the test answers an interval that holds `t`. -/
theorem BBox.intersect_sound (bb : BBox K) (r : Ray K) (t : K)
    (h : bb.containsPoint (r.at_ t)) :
    ∃ t0 t1, bb.intersect r = some (t0, t1) ∧ t0 ≤ BBox.fin t ∧ BBox.fin t ≤ t1 := by
  cases bb with
  | empty => exact absurd h (by simp [BBox.containsPoint])
  | box mn mx =>
    obtain ⟨hx1, hx2, hy1, hy2, hz1, hz2⟩ := h
    obtain ⟨ax, bx, ex, hax, hbx⟩ := BBox.slab_sound mn.x mx.x r.o.x r.d.x t hx1 hx2
    obtain ⟨ay, b_y, ey, hay, hby⟩ := BBox.slab_sound mn.y mx.y r.o.y r.d.y t hy1 hy2
    obtain ⟨az, bz, ez, haz, hbz⟩ := BBox.slab_sound mn.z mx.z r.o.z r.d.z t hz1 hz2
    have h0 : max ax (max ay az) ≤ BBox.fin t := max_le hax (max_le hay haz)
    have h1 : BBox.fin t ≤ min bx (min b_y bz) := le_min hbx (le_min hby hbz)
    refine ⟨max ax (max ay az), min bx (min b_y bz), ?_, h0, h1⟩
    simp only [BBox.intersect, ex, ey, ez]
    simp [h0.trans h1]

theorem BBox.containsPoint_mono {a b : BBox K} (hab : a.within b) (p : Vector3D K)
    (h : a.containsPoint p) : b.containsPoint p := by
  cases a with
  | empty => exact absurd h (by simp [BBox.containsPoint])
  | box mn mx =>
    cases b with
    | empty => exact absurd hab (by simp [BBox.within])
    | box mn' mx' =>
      obtain ⟨h1, h2, h3, h4, h5, h6⟩ := hab
      obtain ⟨g1, g2, g3, g4, g5, g6⟩ := h
      exact ⟨h1.trans g1, g2.trans h4, h2.trans g3, g4.trans h5, h3.trans g5, g6.trans h6⟩

/-- A point on the surface of a well-formed sphere lies in the sphere's box. -/
theorem Sphere.get_bbox_contains (s : Sphere K) (p : Vector3D K) (hr : 0 ≤ s.r)
    (hr2 : s.r2 = s.r * s.r) (hp : dot (p - s.o) (p - s.o) = s.r2) :
    s.get_bbox.containsPoint p := by
  obtain ⟨⟨c1, c2, c3⟩, rad, rad2, bs⟩ := s
  obtain ⟨p1, p2, p3⟩ := p
  simp only at hr hr2
  subst hr2
  have hp' : (p1 - c1) * (p1 - c1) + (p2 - c2) * (p2 - c2) + (p3 - c3) * (p3 - c3)
      = rad * rad := hp
  have k1 := mul_self_nonneg (p1 - c1)
  have k2 := mul_self_nonneg (p2 - c2)
  have k3 := mul_self_nonneg (p3 - c3)
  have key : ∀ u : K, u * u ≤ rad * rad → -rad ≤ u ∧ u ≤ rad := by
    intro u hu
    have := abs_le_of_sq_le_sq' (by simpa [sq] using hu) hr
    exact this
  obtain ⟨a1, a2⟩ := key (p1 - c1) (by linarith)
  obtain ⟨b1, b2⟩ := key (p2 - c2) (by linarith)
  obtain ⟨d1, d2⟩ := key (p3 - c3) (by linarith)
  show c1 - rad ≤ p1 ∧ p1 ≤ c1 + rad ∧ c2 - rad ≤ p2 ∧ p2 ≤ c2 + rad ∧ c3 - rad ≤ p3
      ∧ p3 ≤ c3 + rad
  refine ⟨?_, ?_, ?_, ?_, ?_, ?_⟩ <;> linarith

theorem Sphere.test_true (sqrt : K → K) (s : Sphere K) (r : Ray K) (t1 t2 : K)
    (h : (Sphere.test sqrt s r t1 t2).1 = true) :
    0 ≤ Sphere.delta s r ∧
    r.min_t ≤ (-Sphere.qb s r - sqrt (Sphere.delta s r)) / (2 * Sphere.qa r) ∧
    (-Sphere.qb s r + sqrt (Sphere.delta s r)) / (2 * Sphere.qa r) ≤ r.max_t := by
  by_cases hδ : 0 ≤ Sphere.delta s r
  · rw [Sphere.test_of_nonneg sqrt s r t1 t2 hδ] at h
    simp only [gt_iff_lt, not_or, not_lt, decide_eq_true_eq] at h
    exact ⟨hδ, h.1, h.2⟩
  · unfold Sphere.test at h
    simp [not_le.1 hδ] at h

theorem Sphere.has_intersection_true (sqrt : K → K) (s : Sphere K) (r : Ray K)
    (h : (Sphere.has_intersection sqrt s r).1 = true) :
    (Sphere.test sqrt s r 0 0).1 = true := by
  unfold Sphere.has_intersection at h
  by_cases ht : (Sphere.test sqrt s r 0 0).1 = true
  · exact ht
  · simp [ht] at h

theorem Sphere.has_intersection_false (sqrt : K → K) (s : Sphere K) (r : Ray K)
    (h : (Sphere.has_intersection sqrt s r).1 = false) :
    (Sphere.has_intersection sqrt s r).2 = r := by
  unfold Sphere.has_intersection at h ⊢
  by_cases ht : (Sphere.test sqrt s r 0 0).1 = true
  · simp [ht] at h
  · simp [ht]

/-- A sphere that reports a hit on a ray is not pruned by the test of any box that holds
the sphere's box. -/
theorem Sphere.hit_not_pruned (sqrt : K → K)
    (bbIntersect : BBox K → Ray K → Option (BBox.Ext K × BBox.Ext K))
    (s : Sphere K) (r : Ray K) (bb : BBox K)
    (hd : r.d ≠ ⟨0, 0, 0⟩) (hr : 0 ≤ s.r) (hr2 : s.r2 = s.r * s.r)
    (hsqrt : 0 ≤ Sphere.delta s r → 0 ≤ sqrt (Sphere.delta s r) ∧
      sqrt (Sphere.delta s r) * sqrt (Sphere.delta s r) = Sphere.delta s r)
    (hbox : ∀ (b : BBox K) (t : K), b.containsPoint (r.at_ t) →
      ∃ t0 t1, bbIntersect b r = some (t0, t1) ∧ t0 ≤ BBox.fin t ∧ BBox.fin t ≤ t1)
    (hin : s.get_bbox.within bb)
    (h : (Sphere.has_intersection sqrt s r).1 = true) :
    ∃ t0 t1, bbIntersect bb r = some (t0, t1) ∧
      ¬ (t1 < BBox.fin r.min_t ∨ t0 > BBox.fin r.max_t) := by
  obtain ⟨hδ, hmin, hmax⟩ := Sphere.test_true sqrt s r 0 0 (Sphere.has_intersection_true sqrt s r h)
  obtain ⟨hs0, hs⟩ := hsqrt hδ
  have hle := Sphere.roots_le sqrt s r hd hs0
  have hroots := Sphere.test_roots_aux sqrt s r 0 0 hd hδ hs0 hs
  rw [Sphere.test_of_nonneg sqrt s r 0 0 hδ] at hroots
  simp only [min_eq_left hle, max_eq_right hle] at hroots
  have hsurf := hroots.2.2.1
  have hcont := BBox.containsPoint_mono hin _ (Sphere.get_bbox_contains s _ hr hr2 hsurf)
  obtain ⟨t0, t1, hI, h0, h1⟩ := hbox bb _ hcont
  refine ⟨t0, t1, hI, ?_⟩
  simp only [gt_iff_lt, not_or, not_lt]
  constructor
  · exact (BBox.fin_le_fin.2 hmin).trans h1
  · exact h0.trans (BBox.fin_le_fin.2 (hle.trans hmax))

end Slab

section TraverseLemmas

variable {K P : Type} [LinearOrderedField K]

theorem leafHas_foldl_true (prim : Primitive P K) (xs : List P) (r : Ray K) (n : Nat) :
    (xs.foldl
      (fun (st : Bool × Ray K × Nat) p =>
        ((if (prim.has_intersection p st.2.1).1 then true else st.1),
          (prim.has_intersection p st.2.1).2, st.2.2 + 1))
      (true, r, n)).1 = true := by
  induction xs generalizing r n with
  | nil => rfl
  | cons x xs ih =>
    simp only [List.foldl_cons, ite_self]
    exact ih _ _

/-- The leaf loop of the any-hit query reports a hit exactly when some primitive of the
range, tested alone on the incoming ray, reports one; when it reports none, the ray is as
it came in. -/
theorem leafHas_spec (prim : Primitive P K)
    (hfalse : ∀ p r, (prim.has_intersection p r).1 = false → (prim.has_intersection p r).2 = r)
    (xs : List P) (r : Ray K) (n : Nat) :
    ((leafHas prim xs r n).1 = true ↔ ∃ p ∈ xs, (prim.has_intersection p r).1 = true) ∧
    ((leafHas prim xs r n).1 = false → (leafHas prim xs r n).2.1 = r) := by
  unfold leafHas
  induction xs generalizing n with
  | nil => simp
  | cons x xs ih =>
    simp only [List.foldl_cons]
    by_cases hx : (prim.has_intersection x r).1 = true
    · simp only [hx, if_true]
      have := leafHas_foldl_true prim xs (prim.has_intersection x r).2 (n + 1)
      simp only [if_true] at this ⊢
      constructor
      · exact ⟨fun _ => ⟨x, List.mem_cons_self _ _, hx⟩, fun _ => this⟩
      · intro hf
        rw [this] at hf
        cases hf
    · have hx' : (prim.has_intersection x r).1 = false := by simpa using hx
      simp only [hx', Bool.false_eq_true, if_false, hfalse x r hx']
      obtain ⟨h1, h2⟩ := ih (n + 1)
      refine ⟨?_, h2⟩
      rw [h1]
      constructor
      · rintro ⟨p, hp, hh⟩
        exact ⟨p, List.mem_cons_of_mem _ hp, hh⟩
      · rintro ⟨p, hp, hh⟩
        rcases List.mem_cons.1 hp with rfl | hp'
        · rw [hx'] at hh
          cases hh
        · exact ⟨p, hp', hh⟩

theorem subtreePrims_leaf (prims : List P) (b : BBox K) (s e : Nat) :
    (BVHNode.leaf b s e).subtreePrims prims = slice prims s e := by
  simp [BVHNode.subtreePrims, BVHNode.leafRanges]

/-- The any-hit traversal of a subtree, on a ray for which no box of the subtree prunes a
primitive below it that reports a hit: the result is true exactly when some primitive of
the subtree, tested alone on the incoming ray, reports a hit; when the result is false the
ray is as it came in. -/
theorem has_intersection_spec (prim : Primitive P K)
    (bbIntersect : BBox K → Ray K → Option (BBox.Ext K × BBox.Ext K)) (prims : List P)
    (hfalse : ∀ p r, (prim.has_intersection p r).1 = false → (prim.has_intersection p r).2 = r)
    (r : Ray K) (t : BVHNode K)
    (hprune : ∀ n ∈ t.nodes, ∀ p ∈ n.subtreePrims prims,
      (prim.has_intersection p r).1 = true →
      ∃ t0 t1, bbIntersect n.bb r = some (t0, t1) ∧
        ¬ (t1 < BBox.fin r.min_t ∨ t0 > BBox.fin r.max_t)) :
    ∀ total : Nat,
      ((BVHAccel.has_intersection prim bbIntersect prims t r total).1 = true ↔
        ∃ p ∈ t.subtreePrims prims, (prim.has_intersection p r).1 = true) ∧
      ((BVHAccel.has_intersection prim bbIntersect prims t r total).1 = false →
        (BVHAccel.has_intersection prim bbIntersect prims t r total).2.1 = r) := by
  induction t with
  | leaf bb s e =>
    intro total
    have hp := hprune (BVHNode.leaf bb s e) (by simp [BVHNode.nodes])
    simp only [BVHNode.bb, subtreePrims_leaf] at hp
    rw [subtreePrims_leaf]
    unfold BVHAccel.has_intersection
    cases hI : bbIntersect bb r with
    | none =>
      simp only [Bool.false_eq_true, false_iff, not_exists, not_and, implies_true, and_true]
      intro p hpm hh
      obtain ⟨t0, t1, hI', _⟩ := hp p hpm hh
      rw [hI] at hI'
      cases hI'
    | some tt =>
      obtain ⟨t0, t1⟩ := tt
      simp only
      by_cases hc : t1 < BBox.fin r.min_t ∨ t0 > BBox.fin r.max_t
      · simp only [hc, if_true, Bool.false_eq_true, false_iff, not_exists, not_and,
          implies_true, and_true]
        intro p hpm hh
        obtain ⟨t0', t1', hI', hn⟩ := hp p hpm hh
        rw [hI] at hI'
        simp only [Option.some.injEq, Prod.mk.injEq] at hI'
        rw [← hI'.1, ← hI'.2] at hn
        exact hn hc
      · simp only [hc, if_false]
        exact leafHas_spec prim hfalse _ r total
  | inner bb s e l rt ihl ihr =>
    intro total
    have hp := hprune (BVHNode.inner bb s e l rt) (by simp [BVHNode.nodes])
    simp only [BVHNode.bb] at hp
    have hl := ihl (fun n hn => hprune n (by simp [BVHNode.nodes, hn]))
    have hr := ihr (fun n hn => hprune n (by simp [BVHNode.nodes, hn]))
    rw [subtreePrims_inner] at hp ⊢
    unfold BVHAccel.has_intersection
    cases hI : bbIntersect bb r with
    | none =>
      simp only [Bool.false_eq_true, false_iff, not_exists, not_and, implies_true, and_true]
      intro p hpm hh
      obtain ⟨t0, t1, hI', _⟩ := hp p hpm hh
      rw [hI] at hI'
      cases hI'
    | some tt =>
      obtain ⟨t0, t1⟩ := tt
      simp only
      by_cases hc : t1 < BBox.fin r.min_t ∨ t0 > BBox.fin r.max_t
      · simp only [hc, if_true, Bool.false_eq_true, false_iff, not_exists, not_and,
          implies_true, and_true]
        intro p hpm hh
        obtain ⟨t0', t1', hI', hn⟩ := hp p hpm hh
        rw [hI] at hI'
        simp only [Option.some.injEq, Prod.mk.injEq] at hI'
        rw [← hI'.1, ← hI'.2] at hn
        exact hn hc
      · simp only [hc, if_false]
        obtain ⟨hl1, hl2⟩ := hl total
        by_cases hleft : (BVHAccel.has_intersection prim bbIntersect prims l r total).1 = true
        · simp only [hleft, Bool.true_or, true_iff, Bool.true_eq_false, false_implies,
            and_true]
          obtain ⟨p, hpm, hh⟩ := hl1.1 hleft
          exact ⟨p, List.mem_append_left _ hpm, hh⟩
        · have hleft' : (BVHAccel.has_intersection prim bbIntersect prims l r total).1 = false := by
            simpa using hleft
          have hray := hl2 hleft'
          rw [hray]
          obtain ⟨hr1, hr2⟩ := hr (BVHAccel.has_intersection prim bbIntersect prims l r total).2.2
          simp only [hleft', Bool.false_or]
          refine ⟨?_, hr2⟩
          rw [hr1]
          constructor
          · rintro ⟨p, hpm, hh⟩
            exact ⟨p, List.mem_append_right _ hpm, hh⟩
          · rintro ⟨p, hpm, hh⟩
            rcases List.mem_append.1 hpm with hp' | hp'
            · exact absurd (hl1.2 ⟨p, hp', hh⟩) hleft
            · exact ⟨p, hp', hh⟩

end TraverseLemmas

section AnyHit

variable {K : Type} [LinearOrderedField K]

theorem BVHAccel.new_some {P : Type} {g : P → BBox K} {fuel : Nat} {prims : List P} {m : Nat}
    {acc : BVHAccel P K} (h : BVHAccel.new g fuel prims m = some acc) :
    build g fuel prims 0 m = some (acc.root, acc.primitives) := by
  unfold BVHAccel.new at h
  simp only [construct_bvh_root] at h
  cases hb : build g fuel prims 0 m with
  | none => simp [hb] at h
  | some res =>
    simp only [hb, Option.some.injEq] at h
    rw [← h]

/-- C3 (amended): over exact arithmetic, on the tree that the constructor builds over
well-formed spheres, for a ray with non-zero direction, an exact `sqrt` on the discriminants and a box test that never misses
a ray point lying in the box (the slab test), `BVHAccel::has_intersection` on the root
returns true exactly when some sphere of the input, tested alone on the ray with its
original interval, reports a hit. -/
theorem bvh_has_intersection_iff (sqrt : K → K)
    (bbIntersect : BBox K → Ray K → Option (BBox.Ext K × BBox.Ext K))
    (fuel : Nat) (prims : List (Sphere K)) (max_leaf_size : Nat)
    (acc : BVHAccel (Sphere K) K) (ray : Ray K) (total_isects : Nat)
    (hbuild : BVHAccel.new Sphere.get_bbox fuel prims max_leaf_size = some acc)
    (hd : ray.d ≠ ⟨0, 0, 0⟩)
    (hwf : ∀ s ∈ prims, 0 ≤ s.r ∧ s.r2 = s.r * s.r)
    (hsqrt : ∀ s ∈ prims, 0 ≤ Sphere.delta s ray →
      0 ≤ sqrt (Sphere.delta s ray) ∧
        sqrt (Sphere.delta s ray) * sqrt (Sphere.delta s ray) = Sphere.delta s ray)
    (hbox : ∀ (b : BBox K) (t : K), b.containsPoint (ray.at_ t) →
      ∃ t0 t1, bbIntersect b ray = some (t0, t1) ∧ t0 ≤ BBox.fin t ∧ BBox.fin t ≤ t1) :
    (BVHAccel.has_intersection (Sphere.primitive sqrt) bbIntersect acc.primitives acc.root
        ray total_isects).1 = true
      ↔ ∃ s ∈ prims, (Sphere.has_intersection sqrt s ray).1 = true := by
  have hb := BVHAccel.new_some hbuild
  have hperm := build_perm hb
  have hall : acc.root.subtreePrims acc.primitives = acc.primitives := by
    simpa using build_subtree hb [] [] rfl
  have htight : ∀ n ∈ acc.root.nodes, ∀ p ∈ n.subtreePrims acc.primitives,
      (Sphere.get_bbox p).within n.bb := by
    intro n hn
    have heq := build_tight hb [] [] rfl n hn
    simp only [List.nil_append, List.append_nil] at heq
    rw [heq]
    exact (rangeBox_within_iff Sphere.get_bbox _ _).1 (BBox.within_refl _)
  have hmem_final : ∀ n ∈ acc.root.nodes, ∀ p ∈ n.subtreePrims acc.primitives, p ∈ prims := by
    intro n _ p hp
    apply hperm.mem_iff.1
    simp only [BVHNode.subtreePrims, List.mem_flatMap] at hp
    obtain ⟨se, _, hps⟩ := hp
    exact List.mem_of_mem_drop (List.mem_of_mem_take hps)
  have hspec := has_intersection_spec (Sphere.primitive sqrt) bbIntersect acc.primitives
    (fun p r h => Sphere.has_intersection_false sqrt p r h) ray acc.root
    (fun n hn p hp hh =>
      Sphere.hit_not_pruned sqrt bbIntersect p ray n.bb hd
        (hwf p (hmem_final n hn p hp)).1 (hwf p (hmem_final n hn p hp)).2
        (hsqrt p (hmem_final n hn p hp)) hbox (htight n hn p hp) hh)
    total_isects
  rw [hspec.1, hall]
  constructor
  · rintro ⟨p, hp, hh⟩
    exact ⟨p, hperm.mem_iff.1 hp, hh⟩
  · rintro ⟨p, hp, hh⟩
    exact ⟨p, hperm.mem_iff.2 hp, hh⟩

/-- The witness of C3 (amended): the tree over the nine unit spheres and the ray aimed at the seventh
sphere, with the slab test `BBox.intersect` and `qsqrt`: the query through the tree and the
spheres tested alone agree, and both report a hit.  Each sphere tested alone on doubles
answers as in the exact reading. -/
theorem bvh_has_intersection_iff_witness :
    nineSpheres.map (fun s => (OnDoubles.has_intersection s.toDbl seventhRay.toDbl).1)
      = nineSpheres.map (fun s => (Sphere.has_intersection qsqrt s seventhRay).1) ∧
    ∃ acc : BVHAccel (Sphere ℚ) ℚ,
      BVHAccel.new Sphere.get_bbox 4 nineSpheres 2 = some acc ∧
      ((BVHAccel.has_intersection (Sphere.primitive qsqrt) BBox.intersect acc.primitives
          acc.root seventhRay 0).1 = true
        ↔ ∃ s ∈ nineSpheres, (Sphere.has_intersection qsqrt s seventhRay).1 = true) ∧
      ∃ s ∈ nineSpheres, (Sphere.has_intersection qsqrt s seventhRay).1 = true := by
  refine ⟨by decide!, ?_⟩
  have hsome : (BVHAccel.new Sphere.get_bbox 4 nineSpheres 2).isSome = true := by decide!
  cases h : BVHAccel.new Sphere.get_bbox 4 nineSpheres 2 with
  | none => simp [h] at hsome
  | some acc =>
    exact ⟨acc, rfl,
      bvh_has_intersection_iff qsqrt BBox.intersect 4 nineSpheres 2 acc seventhRay 0 h
        (by decide!) (by decide!) (by decide!)
        (fun b t hb => BBox.intersect_sound b seventhRay t hb),
      by decide!⟩

/-- C4 (the code at the failing input): for the two overlapping spheres, `max_leaf_size = 1`
and the ray from `(0,0,-10)` in direction `(0,0,1)` with interval `[0, 100]`, both spheres hit
when tested alone (near roots 8 and 5); `BVHAccel::intersect` on the root leaves distance 5
while the brute-force scan in the given order leaves distance 8, which is not the
smallest near root. -/
theorem bvh_intersect_differs_from_scan :
    closestViaTree 3 overlapSpheres 1 (axisRay 100) = some (true, 5, 5) ∧
    closestViaScan overlapSpheres (axisRay 100) = (true, 8, 8) ∧
    overlapSpheres.map (fun s =>
        ((Sphere.intersect qsqrt s (axisRay 100) blankRecord).1,
         (Sphere.intersect qsqrt s (axisRay 100) blankRecord).2.2.t))
      = [(true, 8), (true, 5)] := by
  decide!

end AnyHit

section LeafCases

variable {K P : Type} [LinearOrderedField K]

/-- A range of at most `max_leaf_size` primitives: `construct_bvh` returns a leaf from its
first call and leaves the vector as it is. -/
theorem construct_bvh_leaf_case (g : P → BBox K) (fuel : Nat) (prims : List P)
    (start end_ m : Nat) (h : (slice prims start end_).length ≤ m) :
    construct_bvh g (fuel + 1) prims start end_ m
      = some (BVHNode.leaf (rangeBox g (slice prims start end_)) start end_, prims) := by
  unfold construct_bvh
  simp only [scanRange_eq, h, if_true]

theorem slice_all (prims : List P) : slice prims 0 prims.length = prims := by
  simp [slice]

theorem BVHAccel.new_empty (g : P → BBox K) (fuel m : Nat) :
    BVHAccel.new g (fuel + 1) ([] : List P) m
      = some { primitives := [], root := BVHNode.leaf BBox.empty 0 0, total_isects := 0 } := by
  have h := construct_bvh_leaf_case g fuel ([] : List P) 0 0 m (by simp [slice])
  simp only [BVHAccel.new, List.length_nil, h]
  rfl

/-- C11 (the claim fails): with `max_leaf_size = 0` and the empty primitive sequence the
constructor is not rejected, it returns an accelerator. -/
theorem new_zero_leaf_size_accepted :
    (BVHAccel.new Sphere.get_bbox 1 ([] : List (Sphere ℚ)) 0).isSome = true := by
  decide!

/-- C11 (amended): with `max_leaf_size = 0` the constructor reports no configuration error;
on the empty primitive sequence it returns, from its first call, a single leaf root with
the empty range and the empty box. -/
theorem new_zero_leaf_size_empty (g : P → BBox K) (fuel : Nat) :
    BVHAccel.new g (fuel + 1) ([] : List P) 0
      = some { primitives := [], root := BVHNode.leaf BBox.empty 0 0, total_isects := 0 } := by
  exact BVHAccel.new_empty g fuel 0

/-- C12: when the sequence has at most `max_leaf_size` primitives, `construct_bvh` makes no
recursive call (a recursion budget of one call is enough) and returns a single leaf root
whose range is the whole sequence and whose box is the union of all primitive boxes; the
sequence is returned in its order. -/
theorem construct_bvh_small_is_leaf (g : P → BBox K) (fuel : Nat) (prims : List P)
    (max_leaf_size : Nat) (h : prims.length ≤ max_leaf_size) :
    construct_bvh g (fuel + 1) prims 0 prims.length max_leaf_size
        = some (BVHNode.leaf (rangeBox g prims) 0 prims.length, prims) ∧
    construct_bvh g 1 prims 0 prims.length max_leaf_size
        = some (BVHNode.leaf (rangeBox g prims) 0 prims.length, prims) := by
  have hs : (slice prims 0 prims.length).length ≤ max_leaf_size := by
    rw [slice_all]
    exact h
  have h1 := construct_bvh_leaf_case g fuel prims 0 prims.length max_leaf_size hs
  have h2 := construct_bvh_leaf_case g 0 prims 0 prims.length max_leaf_size hs
  rw [slice_all] at h1 h2
  exact ⟨h1, h2⟩

/-- The witness of C12: one unit sphere with `max_leaf_size = 1`. -/
theorem construct_bvh_small_is_leaf_witness :
    construct_bvh Sphere.get_bbox (3 + 1) [unitSphereAt 0] 0 [unitSphereAt 0].length 1
        = some (BVHNode.leaf (rangeBox Sphere.get_bbox [unitSphereAt 0]) 0
            [unitSphereAt 0].length, [unitSphereAt 0]) ∧
    construct_bvh Sphere.get_bbox 1 [unitSphereAt 0] 0 [unitSphereAt 0].length 1
        = some (BVHNode.leaf (rangeBox Sphere.get_bbox [unitSphereAt 0]) 0
            [unitSphereAt 0].length, [unitSphereAt 0]) :=
  construct_bvh_small_is_leaf Sphere.get_bbox 3 [unitSphereAt 0] 1 (by decide)

/-- C13: for the empty primitive sequence and every `max_leaf_size`, construction returns a
single leaf root with the empty range and the empty box, and on that root, whatever the box
test answers, both queries return false and leave the ray, the record and the counter as
they were. -/
theorem empty_accelerator (g : P → BBox K) (prim : Primitive P K)
    (bbIntersect : BBox K → Ray K → Option (BBox.Ext K × BBox.Ext K))
    (fuel max_leaf_size : Nat) (ray : Ray K) (i : Intersection P K) (total_isects : Nat) :
    BVHAccel.new g (fuel + 1) ([] : List P) max_leaf_size
      = some { primitives := [], root := BVHNode.leaf BBox.empty 0 0, total_isects := 0 } ∧
    BVHAccel.has_intersection prim bbIntersect [] (BVHNode.leaf BBox.empty 0 0) ray total_isects
      = (false, ray, total_isects) ∧
    BVHAccel.intersect prim bbIntersect [] (BVHNode.leaf BBox.empty 0 0) ray i total_isects
      = (false, ray, i, total_isects) := by
  refine ⟨?_, ?_, ?_⟩
  · exact BVHAccel.new_empty g fuel max_leaf_size
  · unfold BVHAccel.has_intersection
    cases bbIntersect BBox.empty ray with
    | none => rfl
    | some tt =>
      obtain ⟨t0, t1⟩ := tt
      simp only
      split_ifs
      · rfl
      · simp [slice, leafHas]
  · unfold BVHAccel.intersect
    cases bbIntersect BBox.empty ray with
    | none => rfl
    | some tt =>
      obtain ⟨t0, t1⟩ := tt
      simp only
      split_ifs
      · rfl
      · simp [slice, leafIntersect]

theorem build_zero_nonempty (g : P → BBox K) :
    ∀ (fuel : Nat) (xs : List P) (off : Nat), xs ≠ [] → build g fuel xs off 0 = none := by
  intro fuel
  induction fuel with
  | zero => intro xs off _; rfl
  | succ fuel ih =>
    intro xs off hne
    have hlen : ¬ xs.length ≤ 0 := by
      have := List.length_pos.2 hne
      omega
    unfold build
    simp only [hlen, if_false]
    by_cases hL : xs.filter (belowSplit g xs) = []
    · have hR : xs.filter (fun p => ! belowSplit g xs p) ≠ [] := by
        intro hR
        have := filter_split_length (belowSplit g xs) xs
        rw [hL, hR] at this
        simp only [List.length_nil, Nat.add_zero] at this
        exact hlen (by omega)
      rw [ih _ (off + (xs.filter (belowSplit g xs)).length) hR]
      cases build g fuel (xs.filter (belowSplit g xs)) off 0 <;> rfl
    · rw [ih _ off hL]

/-- With `max_leaf_size = 0` and a primitive sequence that is not empty, `construct_bvh`
returns for no recursion budget. -/
theorem construct_bvh_zero_nonempty (g : P → BBox K) (fuel : Nat) (prims : List P)
    (hne : prims ≠ []) : construct_bvh g fuel prims 0 prims.length 0 = none := by
  rw [construct_bvh_root]
  exact build_zero_nonempty g fuel prims 0 hne

theorem splitOf_eq (g : P → BBox K) (xs : List P) :
    splitOf g xs = (xs.filter (belowSplit g xs), xs.filter (fun p => ! belowSplit g xs p)) := by
  unfold splitOf
  rw [scanRange_eq]
  exact splitRange_eq g xs

theorem construct_bvh_effect (g : P → BBox K) (fuel : Nat) (prims : List P)
    (s e m : Nat) (root : BVHNode K) (final : List P)
    (hse : s ≤ e) (he : e ≤ prims.length)
    (h : construct_bvh g fuel prims s e m = some (root, final)) :
    ∃ ys, build g fuel (slice prims s e) s m = some (root, ys) ∧
      final = prims.take s ++ ys ++ prims.drop e := by
  rw [construct_bvh_eq_build g fuel prims s e m hse he] at h
  cases hb : build g fuel (slice prims s e) s m with
  | none => simp [hb] at h
  | some res =>
    obtain ⟨t, ys⟩ := res
    simp only [hb, Option.map_some', Option.some.injEq, Prod.mk.injEq] at h
    exact ⟨ys, by rw [h.1], h.2.symm⟩

theorem slice_mid (A X B : List P) (s e : Nat) (hs : A.length = s) (he : s + X.length = e) :
    slice (A ++ X ++ B) s e = X := by
  subst hs
  subst he
  exact slice_append A X B

/-- C14 (the claim fails): in the first call on the nine unit spheres the split loop copies
all nine handles into the auxiliary vectors, four into `left` and five into `right`. -/
theorem construct_bvh_fills_aux_vectors :
    (splitOf Sphere.get_bbox nineSpheres).1.length = 4 ∧
    (splitOf Sphere.get_bbox nineSpheres).2.length = 5 := by
  decide!

/-- C14 (amended): the net effect of a call of `construct_bvh` on the primitive vector is a
permutation of the primitives within `[start, end)`: the length and the positions outside
the range are unchanged.  The partition goes through the two auxiliary vectors `left` and
`right`, which together hold a copy of every primitive of the range. -/
theorem construct_bvh_frame (g : P → BBox K) (fuel : Nat) (prims : List P)
    (start end_ max_leaf_size : Nat) (root : BVHNode K) (final : List P)
    (hse : start ≤ end_) (he : end_ ≤ prims.length)
    (h : construct_bvh g fuel prims start end_ max_leaf_size = some (root, final)) :
    final.length = prims.length ∧
    final.take start = prims.take start ∧
    final.drop end_ = prims.drop end_ ∧
    (slice final start end_).Perm (slice prims start end_) ∧
    ((splitOf g (slice prims start end_)).1 ++ (splitOf g (slice prims start end_)).2).Perm
      (slice prims start end_) := by
  obtain ⟨ys, hb, hfinal⟩ := construct_bvh_effect g fuel prims start end_ max_leaf_size root
    final hse he h
  have hperm := build_perm hb
  have hlen := hperm.length_eq
  have hsl := slice_length prims start end_ hse he
  have hA : (prims.take start).length = start := by
    simp only [List.length_take]
    omega
  have hslice : slice final start end_ = ys := by
    rw [hfinal]
    exact slice_mid _ _ _ _ _ hA (by omega)
  refine ⟨?_, ?_, ?_, ?_, ?_⟩
  · rw [hfinal]
    simp only [List.length_append, List.length_take, List.length_drop]
    omega
  · rw [hfinal, List.append_assoc, List.take_left' hA]
  · rw [hfinal]
    have : (prims.take start ++ ys).length = end_ := by
      simp only [List.length_append, List.length_take]
      omega
    rw [List.drop_left' this]
  · rw [hslice]
    exact hperm
  · rw [splitOf_eq]
    exact filter_split_perm _ _

/-- The witness of C14: the construction over the nine unit spheres. -/
theorem construct_bvh_frame_witness :
    ∃ root final,
      construct_bvh Sphere.get_bbox 4 nineSpheres 0 9 2 = some (root, final) ∧
      final.length = nineSpheres.length ∧
      final.take 0 = nineSpheres.take 0 ∧
      final.drop 9 = nineSpheres.drop 9 ∧
      (slice final 0 9).Perm (slice nineSpheres 0 9) ∧
      ((splitOf Sphere.get_bbox (slice nineSpheres 0 9)).1
          ++ (splitOf Sphere.get_bbox (slice nineSpheres 0 9)).2).Perm (slice nineSpheres 0 9) := by
  have hsome : (construct_bvh Sphere.get_bbox 4 nineSpheres 0 9 2).isSome = true := by decide!
  cases h : construct_bvh Sphere.get_bbox 4 nineSpheres 0 9 2 with
  | none => simp [h] at hsome
  | some res =>
    obtain ⟨root, final⟩ := res
    exact ⟨root, final, rfl,
      construct_bvh_frame Sphere.get_bbox 4 nineSpheres 0 9 2 root final
        (by decide) (by decide) h⟩

theorem writeBack_at (A Y B v : List P) (s : Nat) (hs : A.length = s)
    (hv : v.length = Y.length) :
    writeBack (A ++ Y ++ B) s v = (A ++ v ++ B, s + v.length) := by
  subst hs
  exact writeBack_append A Y B v hv

/-- C16: a call of `construct_bvh` that splits its range fills `left` with the primitives
whose centroid is strictly below the centre of the centroid box on the chosen axis and
`right` with all the others, each in the order of the range; the two write loops put
`left ++ right` into the range; the left child is built on the positions of `left` and the
right child on the positions of `right`. -/
theorem construct_bvh_split_stable (g : P → BBox K) (fuel : Nat) (prims : List P)
    (start end_ max_leaf_size : Nat) (root : BVHNode K) (final : List P)
    (hse : start ≤ end_) (he : end_ ≤ prims.length)
    (hsplit : max_leaf_size < (slice prims start end_).length)
    (h : construct_bvh g (fuel + 1) prims start end_ max_leaf_size = some (root, final)) :
    ∃ (L R prims1 : List P) (l r : BVHNode K),
      splitOf g (slice prims start end_) = (L, R) ∧
      L = (slice prims start end_).filter (fun p =>
        decide (((g p).centroid).coord
            (chooseAxis (rangeCentroidBox g (slice prims start end_)).extent)
          < ((rangeCentroidBox g (slice prims start end_)).centroid).coord
            (chooseAxis (rangeCentroidBox g (slice prims start end_)).extent))) ∧
      R = (slice prims start end_).filter (fun p =>
        ! decide (((g p).centroid).coord
            (chooseAxis (rangeCentroidBox g (slice prims start end_)).extent)
          < ((rangeCentroidBox g (slice prims start end_)).centroid).coord
            (chooseAxis (rangeCentroidBox g (slice prims start end_)).extent))) ∧
      (writeBack (writeBack prims start L).1 (start + L.length) R).1
        = prims.take start ++ (L ++ R) ++ prims.drop end_ ∧
      writeBack prims start L
        = (prims.take start ++ L ++ prims.drop (start + L.length), start + L.length) ∧
      slice (prims.take start ++ L ++ prims.drop (start + L.length)) start (start + L.length)
        = L ∧
      construct_bvh g fuel (prims.take start ++ L ++ prims.drop (start + L.length)) start
        (start + L.length) max_leaf_size = some (l, prims1) ∧
      writeBack prims1 (start + L.length) R
        = (prims1.take (start + L.length) ++ R ++ prims1.drop end_, end_) ∧
      slice (prims1.take (start + L.length) ++ R ++ prims1.drop end_) (start + L.length) end_
        = R ∧
      construct_bvh g fuel (prims1.take (start + L.length) ++ R ++ prims1.drop end_)
        (start + L.length) end_ max_leaf_size = some (r, final) ∧
      root = BVHNode.inner (rangeBox g (slice prims start end_)) start end_ l r := by
  obtain ⟨ys, hb, hfinal⟩ := construct_bvh_effect g (fuel + 1) prims start end_ max_leaf_size
    root final hse he h
  rcases build_succ_some hb with ⟨hle, _, _⟩ | ⟨_, l, ls, r, rs, hl, hr, hroot, hys⟩
  · omega
  have hsl := slice_length prims start end_ hse he
  have hlen := filter_split_length (belowSplit g (slice prims start end_)) (slice prims start end_)
  have hA : (prims.take start).length = start := by
    simp only [List.length_take]
    omega
  generalize hLdef : (slice prims start end_).filter (belowSplit g (slice prims start end_)) = L
    at hl hr hlen
  generalize hRdef : (slice prims start end_).filter
    (fun p => ! belowSplit g (slice prims start end_) p) = R at hr hlen
  have hls := build_length hl
  have hrs := build_length hr
  -- the vector after the first write loop
  have hdec : prims = prims.take start ++ (slice prims start end_).take L.length
      ++ ((slice prims start end_).drop L.length ++ prims.drop end_) := by
    conv_lhs => rw [prims_decompose prims start end_ hse,
      ← List.take_append_drop L.length (slice prims start end_)]
    simp only [List.append_assoc]
  have hdrop : prims.drop (start + L.length)
      = (slice prims start end_).drop L.length ++ prims.drop end_ := by
    conv_lhs => rw [hdec]
    have : (prims.take start ++ (slice prims start end_).take L.length).length
        = start + L.length := by
      simp only [List.length_append, List.length_take]
      omega
    rw [List.drop_left' this]
  have hw1 : writeBack prims start L
      = (prims.take start ++ L ++ prims.drop (start + L.length), start + L.length) := by
    rw [hdrop]
    conv_lhs => rw [hdec]
    exact writeBack_at _ _ _ _ _ hA (by simp only [List.length_take]; omega)
  -- the left call
  have hcl : construct_bvh g fuel (prims.take start ++ L ++ prims.drop (start + L.length))
      start (start + L.length) max_leaf_size
      = some (l, prims.take start ++ ls ++ prims.drop (start + L.length)) := by
    have := construct_bvh_append g max_leaf_size fuel (prims.take start) L
      (prims.drop (start + L.length))
    rw [hA, hl] at this
    exact this
  have hAl : (prims.take start ++ ls).length = start + L.length := by
    simp only [List.length_append, hA, hls]
  have ht1 : (prims.take start ++ ls ++ prims.drop (start + L.length)).take (start + L.length)
      = prims.take start ++ ls := List.take_left' hAl
  have hd1 : (prims.take start ++ ls ++ prims.drop (start + L.length)).drop end_
      = prims.drop end_ := by
    rw [hdrop]
    have e1 : prims.take start ++ ls ++ ((slice prims start end_).drop L.length ++ prims.drop end_)
        = (prims.take start ++ ls ++ (slice prims start end_).drop L.length) ++ prims.drop end_ := by
      simp only [List.append_assoc]
    rw [e1]
    apply List.drop_left'
    simp only [List.length_append, List.length_drop, hA, hls]
    omega
  have hw2 : writeBack (prims.take start ++ ls ++ prims.drop (start + L.length))
      (start + L.length) R
      = (prims.take start ++ ls ++ R ++ prims.drop end_, end_) := by
    rw [hdrop]
    have e1 : prims.take start ++ ls ++ ((slice prims start end_).drop L.length ++ prims.drop end_)
        = (prims.take start ++ ls) ++ (slice prims start end_).drop L.length ++ prims.drop end_ := by
      simp only [List.append_assoc]
    rw [e1, writeBack_at _ _ _ _ _ hAl (by simp only [List.length_drop]; omega)]
    congr 1
    omega
  have hcr : construct_bvh g fuel (prims.take start ++ ls ++ R ++ prims.drop end_)
      (start + L.length) end_ max_leaf_size = some (r, final) := by
    have := construct_bvh_append g max_leaf_size fuel (prims.take start ++ ls) R
      (prims.drop end_)
    rw [hAl, hr] at this
    have he' : start + L.length + R.length = end_ := by omega
    rw [he'] at this
    rw [this, hfinal, hys]
    simp only [Option.map_some', List.append_assoc]
  have hend : start + (slice prims start end_).length = end_ := by omega
  rw [hend] at hroot
  refine ⟨L, R, prims.take start ++ ls ++ prims.drop (start + L.length), l, r, ?_, ?_, ?_, ?_,
    hw1, ?_, hcl, ?_, ?_, ?_, hroot⟩
  · rw [splitOf_eq, hLdef, hRdef]
  · rw [← hLdef]
    rfl
  · rw [← hRdef]
    rfl
  · rw [hw1]
    simp only
    have e2 : prims.take start ++ L ++ prims.drop (start + L.length)
        = (prims.take start ++ L) ++ (slice prims start end_).drop L.length ++ prims.drop end_ := by
      rw [hdrop]
      simp only [List.append_assoc]
    have hAL : (prims.take start ++ L).length = start + L.length := by
      simp only [List.length_append, hA]
    rw [e2, writeBack_at _ _ _ _ _ hAL (by simp only [List.length_drop]; omega)]
    simp only [List.append_assoc]
  · exact slice_mid _ _ _ _ _ hA rfl
  · rw [ht1, hd1]
    exact hw2
  · rw [ht1, hd1]
    exact slice_mid _ _ _ _ _ hAl (by omega)
  · rw [ht1, hd1]
    exact hcr

/-- The witness of C16: the first call on the nine unit spheres with `max_leaf_size = 2`
puts the four spheres left of the centre `x = 12` into `left` and the other five into
`right`, in their order. -/
theorem construct_bvh_split_stable_witness :
    ∃ root final,
      construct_bvh Sphere.get_bbox (3 + 1) nineSpheres 0 9 2 = some (root, final) ∧
      splitOf Sphere.get_bbox (slice nineSpheres 0 9)
        = ([unitSphereAt 0, unitSphereAt 3, unitSphereAt 6, unitSphereAt 9],
           [unitSphereAt 12, unitSphereAt 15, unitSphereAt 18, unitSphereAt 21,
            unitSphereAt 24]) ∧
      ∃ (L R prims1 : List (Sphere ℚ)) (l r : BVHNode ℚ),
        splitOf Sphere.get_bbox (slice nineSpheres 0 9) = (L, R) ∧
        L = (slice nineSpheres 0 9).filter (fun p =>
          decide (((Sphere.get_bbox p).centroid).coord
              (chooseAxis (rangeCentroidBox Sphere.get_bbox (slice nineSpheres 0 9)).extent)
            < ((rangeCentroidBox Sphere.get_bbox (slice nineSpheres 0 9)).centroid).coord
              (chooseAxis (rangeCentroidBox Sphere.get_bbox (slice nineSpheres 0 9)).extent))) ∧
        R = (slice nineSpheres 0 9).filter (fun p =>
          ! decide (((Sphere.get_bbox p).centroid).coord
              (chooseAxis (rangeCentroidBox Sphere.get_bbox (slice nineSpheres 0 9)).extent)
            < ((rangeCentroidBox Sphere.get_bbox (slice nineSpheres 0 9)).centroid).coord
              (chooseAxis (rangeCentroidBox Sphere.get_bbox (slice nineSpheres 0 9)).extent))) ∧
        (writeBack (writeBack nineSpheres 0 L).1 (0 + L.length) R).1
          = nineSpheres.take 0 ++ (L ++ R) ++ nineSpheres.drop 9 ∧
        writeBack nineSpheres 0 L
          = (nineSpheres.take 0 ++ L ++ nineSpheres.drop (0 + L.length), 0 + L.length) ∧
        slice (nineSpheres.take 0 ++ L ++ nineSpheres.drop (0 + L.length)) 0 (0 + L.length)
          = L ∧
        construct_bvh Sphere.get_bbox 3
          (nineSpheres.take 0 ++ L ++ nineSpheres.drop (0 + L.length)) 0
          (0 + L.length) 2 = some (l, prims1) ∧
        writeBack prims1 (0 + L.length) R
          = (prims1.take (0 + L.length) ++ R ++ prims1.drop 9, 9) ∧
        slice (prims1.take (0 + L.length) ++ R ++ prims1.drop 9) (0 + L.length) 9 = R ∧
        construct_bvh Sphere.get_bbox 3 (prims1.take (0 + L.length) ++ R ++ prims1.drop 9)
          (0 + L.length) 9 2 = some (r, final) ∧
        root = BVHNode.inner (rangeBox Sphere.get_bbox (slice nineSpheres 0 9)) 0 9 l r := by
  have hsome : (construct_bvh Sphere.get_bbox (3 + 1) nineSpheres 0 9 2).isSome = true := by
    decide!
  cases h : construct_bvh Sphere.get_bbox (3 + 1) nineSpheres 0 9 2 with
  | none => simp [h] at hsome
  | some res =>
    obtain ⟨root, final⟩ := res
    exact ⟨root, final, rfl, by decide!,
      construct_bvh_split_stable Sphere.get_bbox 3 nineSpheres 0 9 2 root final
        (by decide) (by decide) (by decide) h⟩

theorem build_left_empty (g : P → BBox K) (xs : List P) (m : Nat) (hm : m < xs.length)
    (hl : xs.filter (belowSplit g xs) = []) :
    ∀ fuel off, build g fuel xs off m = none := by
  have hr : xs.filter (fun p => ! belowSplit g xs p) = xs := by
    rw [List.filter_eq_self]
    intro p hp
    have : belowSplit g xs p ≠ true := by
      intro hb
      have := List.mem_filter.2 ⟨hp, hb⟩
      rw [hl] at this
      cases this
    simpa using this
  intro fuel
  induction fuel with
  | zero => intro off; rfl
  | succ fuel ih =>
    intro off
    unfold build
    simp only [Nat.not_le.2 hm, if_false, hl, hr, ih]
    cases build g fuel [] off m <;> rfl

/-- C15 (the code at the failing input): for the two spheres on the diagonal of the
xy-plane the centroid box has extents `(1, 1, 0)`; the code chooses axis 2 (z), whose extent
is smaller than that of x and of y.  On a tie between x and z alone it also chooses z. -/
theorem chooseAxis_tie_picks_z :
    (scanRange Sphere.get_bbox diagonalSpheres).2.2.extent = ⟨1, 1, 0⟩ ∧
    chooseAxis (scanRange Sphere.get_bbox diagonalSpheres).2.2.extent = 2 ∧
    ((scanRange Sphere.get_bbox diagonalSpheres).2.2.extent).coord 2
      < ((scanRange Sphere.get_bbox diagonalSpheres).2.2.extent).coord 0 ∧
    chooseAxis (⟨1, 0, 1⟩ : Vector3D ℚ) = 2 := by
  decide!

/-- C20 (the code at the failing input): the two spheres on the diagonal of the xy-plane
have different centroids and are more than `max_leaf_size = 1`, and yet the split loop puts
none on the left and both on the right; the right recursive call gets the whole range, and
`construct_bvh` returns for no recursion budget. -/
theorem split_diagonal_left_empty :
    diagonalSpheres.map (fun s => (Sphere.get_bbox s).centroid)
      = [⟨0, 0, 0⟩, ⟨2, 2, 0⟩] ∧
    splitOf Sphere.get_bbox diagonalSpheres = ([], diagonalSpheres) ∧
    ∀ fuel, construct_bvh Sphere.get_bbox fuel diagonalSpheres 0 diagonalSpheres.length 1
      = none := by
  refine ⟨by decide!, by decide!, ?_⟩
  intro fuel
  rw [construct_bvh_root]
  exact build_left_empty Sphere.get_bbox diagonalSpheres 1 (by decide) (by decide!) fuel 0

end LeafCases

section PruneAndCount

variable {K P : Type} [LinearOrderedField K]

/-- Both queries at a node whose box prunes the ray. -/
theorem traverse_pruned (prim : Primitive P K)
    (bbIntersect : BBox K → Ray K → Option (BBox.Ext K × BBox.Ext K)) (prims : List P)
    (node : BVHNode K) (ray : Ray K) (i : Intersection P K) (total_isects : Nat)
    (h : prunes bbIntersect node.bb ray) :
    BVHAccel.has_intersection prim bbIntersect prims node ray total_isects
      = (false, ray, total_isects) ∧
    BVHAccel.intersect prim bbIntersect prims node ray i total_isects
      = (false, ray, i, total_isects) := by
  unfold prunes at h
  cases node with
  | leaf bb s e =>
    simp only [BVHNode.bb] at h
    unfold BVHAccel.has_intersection BVHAccel.intersect
    cases hI : bbIntersect bb ray with
    | none => exact ⟨rfl, rfl⟩
    | some tt =>
      obtain ⟨t0, t1⟩ := tt
      rw [hI] at h
      simp only at h
      simp only [h, if_true, and_self]
  | inner bb s e l r =>
    simp only [BVHNode.bb] at h
    unfold BVHAccel.has_intersection BVHAccel.intersect
    cases hI : bbIntersect bb ray with
    | none => exact ⟨rfl, rfl⟩
    | some tt =>
      obtain ⟨t0, t1⟩ := tt
      rw [hI] at h
      simp only at h
      simp only [h, if_true, and_self]

/-- C17: at a node whose box prunes the ray (the box test reports a miss, or `t1 < min_t`,
or `t0 > max_t` for the ray's current interval), both queries return false and leave the
counter, the ray and the record as they were. -/
theorem bvh_prune_frame (prim : Primitive P K)
    (bbIntersect : BBox K → Ray K → Option (BBox.Ext K × BBox.Ext K)) (prims : List P)
    (node : BVHNode K) (ray : Ray K) (i : Intersection P K) (total_isects : Nat)
    (h : prunes bbIntersect node.bb ray) :
    BVHAccel.has_intersection prim bbIntersect prims node ray total_isects
      = (false, ray, total_isects) ∧
    BVHAccel.intersect prim bbIntersect prims node ray i total_isects
      = (false, ray, i, total_isects) :=
  traverse_pruned prim bbIntersect prims node ray i total_isects h

/-- The witness of C17: the ray aimed at the seventh sphere misses the box of the leaf over
the first sphere. -/
theorem bvh_prune_frame_witness :
    BBox.intersect firstLeaf.bb seventhRay = none ∧
    BVHAccel.has_intersection (Sphere.primitive qsqrt) BBox.intersect nineSpheres firstLeaf
        seventhRay 0 = (false, seventhRay, 0) ∧
    BVHAccel.intersect (Sphere.primitive qsqrt) BBox.intersect nineSpheres firstLeaf
        seventhRay blankRecord 0 = (false, seventhRay, blankRecord, 0) :=
  ⟨by decide!,
    bvh_prune_frame (Sphere.primitive qsqrt) BBox.intersect nineSpheres firstLeaf seventhRay
      blankRecord 0 (by decide!)⟩

theorem anyHitResults_length (prim : Primitive P K) (xs : List P) (ray : Ray K) :
    (anyHitResults prim xs ray).1.length = xs.length := by
  induction xs generalizing ray with
  | nil => rfl
  | cons x xs ih => simp [anyHitResults, ih]

theorem closestResults_length (prim : Primitive P K) (xs : List P) (ray : Ray K)
    (i : Intersection P K) : (closestResults prim xs ray i).1.length = xs.length := by
  induction xs generalizing ray i with
  | nil => rfl
  | cons x xs ih => simp [closestResults, ih]

theorem leafHas_foldl (prim : Primitive P K) (xs : List P) (h0 : Bool) (ray : Ray K) (n : Nat) :
    xs.foldl
      (fun (st : Bool × Ray K × Nat) p =>
        ((if (prim.has_intersection p st.2.1).1 then true else st.1),
          (prim.has_intersection p st.2.1).2, st.2.2 + 1))
      (h0, ray, n)
    = (h0 || (anyHitResults prim xs ray).1.any id, (anyHitResults prim xs ray).2,
        n + xs.length) := by
  induction xs generalizing h0 ray n with
  | nil => simp [anyHitResults]
  | cons x xs ih =>
    rw [List.foldl_cons, ih]
    simp only [anyHitResults, List.any_cons, id_eq, List.length_cons, Prod.mk.injEq,
      true_and]
    refine ⟨?_, by omega⟩
    cases (prim.has_intersection x ray).1 <;> cases h0 <;> simp

theorem leafIntersect_foldl (prim : Primitive P K) (xs : List P) (h0 : Bool) (ray : Ray K)
    (i : Intersection P K) (n : Nat) :
    xs.foldl
      (fun (st : Bool × Ray K × Intersection P K × Nat) p =>
        ((if (prim.intersect p st.2.1 st.2.2.1).1 then true else st.1),
          (prim.intersect p st.2.1 st.2.2.1).2.1, (prim.intersect p st.2.1 st.2.2.1).2.2,
          st.2.2.2 + 1))
      (h0, ray, i, n)
    = (h0 || (closestResults prim xs ray i).1.any id, (closestResults prim xs ray i).2.1,
        (closestResults prim xs ray i).2.2, n + xs.length) := by
  induction xs generalizing h0 ray i n with
  | nil => simp [closestResults]
  | cons x xs ih =>
    rw [List.foldl_cons, ih]
    simp only [closestResults, List.any_cons, id_eq, List.length_cons, Prod.mk.injEq,
      true_and]
    refine ⟨?_, by omega⟩
    cases (prim.intersect x ray i).1 <;> cases h0 <;> simp

/-- The leaf loop of the any-hit query tests every primitive in order and counts each. -/
theorem leafHas_eq (prim : Primitive P K) (xs : List P) (ray : Ray K) (n : Nat) :
    leafHas prim xs ray n
      = ((anyHitResults prim xs ray).1.any id, (anyHitResults prim xs ray).2, n + xs.length) := by
  unfold leafHas
  rw [leafHas_foldl]
  simp

/-- The leaf loop of the closest-hit query tests every primitive in order and counts
each. -/
theorem leafIntersect_eq (prim : Primitive P K) (xs : List P) (ray : Ray K)
    (i : Intersection P K) (n : Nat) :
    leafIntersect prim xs ray i n
      = ((closestResults prim xs ray i).1.any id, (closestResults prim xs ray i).2.1,
          (closestResults prim xs ray i).2.2, n + xs.length) := by
  unfold leafIntersect
  rw [leafIntersect_foldl]
  simp

theorem has_intersection_leaf_pass (prim : Primitive P K)
    (bbIntersect : BBox K → Ray K → Option (BBox.Ext K × BBox.Ext K)) (prims : List P)
    (bb : BBox K) (s e : Nat) (ray : Ray K) (n : Nat) (h : ¬ prunes bbIntersect bb ray) :
    BVHAccel.has_intersection prim bbIntersect prims (BVHNode.leaf bb s e) ray n
      = leafHas prim (slice prims s e) ray n := by
  unfold prunes at h
  unfold BVHAccel.has_intersection
  cases hI : bbIntersect bb ray with
  | none => simp [hI] at h
  | some tt =>
    obtain ⟨t0, t1⟩ := tt
    rw [hI] at h
    simp only at h
    simp only [h, if_false]

theorem intersect_leaf_pass (prim : Primitive P K)
    (bbIntersect : BBox K → Ray K → Option (BBox.Ext K × BBox.Ext K)) (prims : List P)
    (bb : BBox K) (s e : Nat) (ray : Ray K) (i : Intersection P K) (n : Nat)
    (h : ¬ prunes bbIntersect bb ray) :
    BVHAccel.intersect prim bbIntersect prims (BVHNode.leaf bb s e) ray i n
      = leafIntersect prim (slice prims s e) ray i n := by
  unfold prunes at h
  unfold BVHAccel.intersect
  cases hI : bbIntersect bb ray with
  | none => simp [hI] at h
  | some tt =>
    obtain ⟨t0, t1⟩ := tt
    rw [hI] at h
    simp only at h
    simp only [h, if_false]

theorem has_intersection_inner_pass (prim : Primitive P K)
    (bbIntersect : BBox K → Ray K → Option (BBox.Ext K × BBox.Ext K)) (prims : List P)
    (bb : BBox K) (s e : Nat) (l r : BVHNode K) (ray : Ray K) (n : Nat)
    (h : ¬ prunes bbIntersect bb ray) :
    BVHAccel.has_intersection prim bbIntersect prims (BVHNode.inner bb s e l r) ray n
      = ((BVHAccel.has_intersection prim bbIntersect prims l ray n).1 ||
          (BVHAccel.has_intersection prim bbIntersect prims r
            (BVHAccel.has_intersection prim bbIntersect prims l ray n).2.1
            (BVHAccel.has_intersection prim bbIntersect prims l ray n).2.2).1,
         (BVHAccel.has_intersection prim bbIntersect prims r
            (BVHAccel.has_intersection prim bbIntersect prims l ray n).2.1
            (BVHAccel.has_intersection prim bbIntersect prims l ray n).2.2).2.1,
         (BVHAccel.has_intersection prim bbIntersect prims r
            (BVHAccel.has_intersection prim bbIntersect prims l ray n).2.1
            (BVHAccel.has_intersection prim bbIntersect prims l ray n).2.2).2.2) := by
  unfold prunes at h
  conv_lhs => unfold BVHAccel.has_intersection
  cases hI : bbIntersect bb ray with
  | none => simp [hI] at h
  | some tt =>
    obtain ⟨t0, t1⟩ := tt
    rw [hI] at h
    simp only at h
    simp only [h, if_false]

theorem intersect_inner_pass (prim : Primitive P K)
    (bbIntersect : BBox K → Ray K → Option (BBox.Ext K × BBox.Ext K)) (prims : List P)
    (bb : BBox K) (s e : Nat) (l r : BVHNode K) (ray : Ray K) (i : Intersection P K) (n : Nat)
    (h : ¬ prunes bbIntersect bb ray) :
    BVHAccel.intersect prim bbIntersect prims (BVHNode.inner bb s e l r) ray i n
      = ((BVHAccel.intersect prim bbIntersect prims l ray i n).1 ||
          (BVHAccel.intersect prim bbIntersect prims r
            (BVHAccel.intersect prim bbIntersect prims l ray i n).2.1
            (BVHAccel.intersect prim bbIntersect prims l ray i n).2.2.1
            (BVHAccel.intersect prim bbIntersect prims l ray i n).2.2.2).1,
         (BVHAccel.intersect prim bbIntersect prims r
            (BVHAccel.intersect prim bbIntersect prims l ray i n).2.1
            (BVHAccel.intersect prim bbIntersect prims l ray i n).2.2.1
            (BVHAccel.intersect prim bbIntersect prims l ray i n).2.2.2).2.1,
         (BVHAccel.intersect prim bbIntersect prims r
            (BVHAccel.intersect prim bbIntersect prims l ray i n).2.1
            (BVHAccel.intersect prim bbIntersect prims l ray i n).2.2.1
            (BVHAccel.intersect prim bbIntersect prims l ray i n).2.2.2).2.2.1,
         (BVHAccel.intersect prim bbIntersect prims r
            (BVHAccel.intersect prim bbIntersect prims l ray i n).2.1
            (BVHAccel.intersect prim bbIntersect prims l ray i n).2.2.1
            (BVHAccel.intersect prim bbIntersect prims l ray i n).2.2.2).2.2.2) := by
  unfold prunes at h
  conv_lhs => unfold BVHAccel.intersect
  cases hI : bbIntersect bb ray with
  | none => simp [hI] at h
  | some tt =>
    obtain ⟨t0, t1⟩ := tt
    rw [hI] at h
    simp only at h
    simp only [h, if_false]

theorem reachedHas_pruned (prim : Primitive P K)
    (bbIntersect : BBox K → Ray K → Option (BBox.Ext K × BBox.Ext K)) (prims : List P)
    (node : BVHNode K) (ray : Ray K) (h : prunes bbIntersect node.bb ray) :
    reachedHas prim bbIntersect prims node ray = 0 := by
  cases node <;> simp only [BVHNode.bb] at h <;> simp [reachedHas, h]

theorem reachedIntersect_pruned (prim : Primitive P K)
    (bbIntersect : BBox K → Ray K → Option (BBox.Ext K × BBox.Ext K)) (prims : List P)
    (node : BVHNode K) (ray : Ray K) (i : Intersection P K)
    (h : prunes bbIntersect node.bb ray) :
    reachedIntersect prim bbIntersect prims node ray i = 0 := by
  cases node <;> simp only [BVHNode.bb] at h <;> simp [reachedIntersect, h]

/-- The any-hit query does not read the counter: on any counter it returns what it returns
on counter 0, with the counter raised by the total size of the leaves reached. -/
theorem has_intersection_counter (prim : Primitive P K)
    (bbIntersect : BBox K → Ray K → Option (BBox.Ext K × BBox.Ext K)) (prims : List P)
    (node : BVHNode K) :
    ∀ (ray : Ray K) (n : Nat),
      BVHAccel.has_intersection prim bbIntersect prims node ray n
        = ((BVHAccel.has_intersection prim bbIntersect prims node ray 0).1,
           (BVHAccel.has_intersection prim bbIntersect prims node ray 0).2.1,
           n + reachedHas prim bbIntersect prims node ray) := by
  induction node with
  | leaf bb s e =>
    intro ray n
    by_cases hp : prunes bbIntersect bb ray
    · have h1 := (traverse_pruned prim bbIntersect prims (BVHNode.leaf bb s e) ray
        ⟨ray.min_t, ⟨0, 0, 0⟩, none, none⟩ n hp).1
      have h0 := (traverse_pruned prim bbIntersect prims (BVHNode.leaf bb s e) ray
        ⟨ray.min_t, ⟨0, 0, 0⟩, none, none⟩ 0 hp).1
      rw [h1, h0, reachedHas_pruned prim bbIntersect prims (BVHNode.leaf bb s e) ray hp]
      rfl
    · rw [has_intersection_leaf_pass prim bbIntersect prims bb s e ray n hp,
        has_intersection_leaf_pass prim bbIntersect prims bb s e ray 0 hp, leafHas_eq,
        leafHas_eq]
      simp [reachedHas, hp]
  | inner bb s e l r ihl ihr =>
    intro ray n
    by_cases hp : prunes bbIntersect bb ray
    · have h1 := (traverse_pruned prim bbIntersect prims (BVHNode.inner bb s e l r) ray
        ⟨ray.min_t, ⟨0, 0, 0⟩, none, none⟩ n hp).1
      have h0 := (traverse_pruned prim bbIntersect prims (BVHNode.inner bb s e l r) ray
        ⟨ray.min_t, ⟨0, 0, 0⟩, none, none⟩ 0 hp).1
      rw [h1, h0, reachedHas_pruned prim bbIntersect prims (BVHNode.inner bb s e l r) ray hp]
      rfl
    · rw [has_intersection_inner_pass prim bbIntersect prims bb s e l r ray n hp,
        has_intersection_inner_pass prim bbIntersect prims bb s e l r ray 0 hp]
      have hl0 := ihl ray 0
      rw [ihl ray n]
      simp only
      rw [ihr (BVHAccel.has_intersection prim bbIntersect prims l ray 0).2.1
        (n + reachedHas prim bbIntersect prims l ray)]
      rw [ihr (BVHAccel.has_intersection prim bbIntersect prims l ray 0).2.1
        (BVHAccel.has_intersection prim bbIntersect prims l ray 0).2.2]
      simp only [reachedHas, hp, if_false, Prod.mk.injEq, true_and]
      omega

/-- The closest-hit query does not read the counter: on any counter it returns what it
returns on counter 0, with the counter raised by the total size of the leaves reached. -/
theorem intersect_counter (prim : Primitive P K)
    (bbIntersect : BBox K → Ray K → Option (BBox.Ext K × BBox.Ext K)) (prims : List P)
    (node : BVHNode K) :
    ∀ (ray : Ray K) (i : Intersection P K) (n : Nat),
      BVHAccel.intersect prim bbIntersect prims node ray i n
        = ((BVHAccel.intersect prim bbIntersect prims node ray i 0).1,
           (BVHAccel.intersect prim bbIntersect prims node ray i 0).2.1,
           (BVHAccel.intersect prim bbIntersect prims node ray i 0).2.2.1,
           n + reachedIntersect prim bbIntersect prims node ray i) := by
  induction node with
  | leaf bb s e =>
    intro ray i n
    by_cases hp : prunes bbIntersect bb ray
    · have h1 := (traverse_pruned prim bbIntersect prims (BVHNode.leaf bb s e) ray i n hp).2
      have h0 := (traverse_pruned prim bbIntersect prims (BVHNode.leaf bb s e) ray i 0 hp).2
      rw [h1, h0, reachedIntersect_pruned prim bbIntersect prims (BVHNode.leaf bb s e) ray i hp]
      rfl
    · rw [intersect_leaf_pass prim bbIntersect prims bb s e ray i n hp,
        intersect_leaf_pass prim bbIntersect prims bb s e ray i 0 hp, leafIntersect_eq,
        leafIntersect_eq]
      simp [reachedIntersect, hp]
  | inner bb s e l r ihl ihr =>
    intro ray i n
    by_cases hp : prunes bbIntersect bb ray
    · have h1 := (traverse_pruned prim bbIntersect prims (BVHNode.inner bb s e l r) ray i n
        hp).2
      have h0 := (traverse_pruned prim bbIntersect prims (BVHNode.inner bb s e l r) ray i 0
        hp).2
      rw [h1, h0, reachedIntersect_pruned prim bbIntersect prims (BVHNode.inner bb s e l r) ray i hp]
      rfl
    · rw [intersect_inner_pass prim bbIntersect prims bb s e l r ray i n hp,
        intersect_inner_pass prim bbIntersect prims bb s e l r ray i 0 hp]
      rw [ihl ray i n]
      simp only
      rw [ihr (BVHAccel.intersect prim bbIntersect prims l ray i 0).2.1
        (BVHAccel.intersect prim bbIntersect prims l ray i 0).2.2.1
        (n + reachedIntersect prim bbIntersect prims l ray i)]
      rw [ihr (BVHAccel.intersect prim bbIntersect prims l ray i 0).2.1
        (BVHAccel.intersect prim bbIntersect prims l ray i 0).2.2.1
        (BVHAccel.intersect prim bbIntersect prims l ray i 0).2.2.2]
      simp only [reachedIntersect, hp, if_false, Prod.mk.injEq, true_and]
      omega

/-- C18: neither query short-circuits.  At a leaf that passes the box test every primitive
of the range is tested in order (one result per primitive), the counter rises by the size
of the range and the result is the OR of the results; at an internal node that passes, the
left child and then the right child are traversed and the result is the OR.  The counter
after a query is the counter before plus the total size of the leaves reached without
pruning. -/
theorem bvh_no_short_circuit (prim : Primitive P K)
    (bbIntersect : BBox K → Ray K → Option (BBox.Ext K × BBox.Ext K)) (prims : List P)
    (ray : Ray K) (i : Intersection P K) (total_isects : Nat) :
    (∀ bb s e, ¬ prunes bbIntersect bb ray →
      BVHAccel.has_intersection prim bbIntersect prims (BVHNode.leaf bb s e) ray total_isects
        = ((anyHitResults prim (slice prims s e) ray).1.any id,
           (anyHitResults prim (slice prims s e) ray).2,
           total_isects + (slice prims s e).length) ∧
      (anyHitResults prim (slice prims s e) ray).1.length = (slice prims s e).length ∧
      BVHAccel.intersect prim bbIntersect prims (BVHNode.leaf bb s e) ray i total_isects
        = ((closestResults prim (slice prims s e) ray i).1.any id,
           (closestResults prim (slice prims s e) ray i).2.1,
           (closestResults prim (slice prims s e) ray i).2.2,
           total_isects + (slice prims s e).length) ∧
      (closestResults prim (slice prims s e) ray i).1.length = (slice prims s e).length) ∧
    (∀ bb s e l r, ¬ prunes bbIntersect bb ray →
      BVHAccel.has_intersection prim bbIntersect prims (BVHNode.inner bb s e l r) ray
          total_isects
        = ((BVHAccel.has_intersection prim bbIntersect prims l ray total_isects).1 ||
            (BVHAccel.has_intersection prim bbIntersect prims r
              (BVHAccel.has_intersection prim bbIntersect prims l ray total_isects).2.1
              (BVHAccel.has_intersection prim bbIntersect prims l ray total_isects).2.2).1,
           (BVHAccel.has_intersection prim bbIntersect prims r
              (BVHAccel.has_intersection prim bbIntersect prims l ray total_isects).2.1
              (BVHAccel.has_intersection prim bbIntersect prims l ray total_isects).2.2).2.1,
           (BVHAccel.has_intersection prim bbIntersect prims r
              (BVHAccel.has_intersection prim bbIntersect prims l ray total_isects).2.1
              (BVHAccel.has_intersection prim bbIntersect prims l ray total_isects).2.2).2.2) ∧
      BVHAccel.intersect prim bbIntersect prims (BVHNode.inner bb s e l r) ray i total_isects
        = ((BVHAccel.intersect prim bbIntersect prims l ray i total_isects).1 ||
            (BVHAccel.intersect prim bbIntersect prims r
              (BVHAccel.intersect prim bbIntersect prims l ray i total_isects).2.1
              (BVHAccel.intersect prim bbIntersect prims l ray i total_isects).2.2.1
              (BVHAccel.intersect prim bbIntersect prims l ray i total_isects).2.2.2).1,
           (BVHAccel.intersect prim bbIntersect prims r
              (BVHAccel.intersect prim bbIntersect prims l ray i total_isects).2.1
              (BVHAccel.intersect prim bbIntersect prims l ray i total_isects).2.2.1
              (BVHAccel.intersect prim bbIntersect prims l ray i total_isects).2.2.2).2.1,
           (BVHAccel.intersect prim bbIntersect prims r
              (BVHAccel.intersect prim bbIntersect prims l ray i total_isects).2.1
              (BVHAccel.intersect prim bbIntersect prims l ray i total_isects).2.2.1
              (BVHAccel.intersect prim bbIntersect prims l ray i total_isects).2.2.2).2.2.1,
           (BVHAccel.intersect prim bbIntersect prims r
              (BVHAccel.intersect prim bbIntersect prims l ray i total_isects).2.1
              (BVHAccel.intersect prim bbIntersect prims l ray i total_isects).2.2.1
              (BVHAccel.intersect prim bbIntersect prims l ray i total_isects).2.2.2).2.2.2)) ∧
    (∀ node : BVHNode K,
      (BVHAccel.has_intersection prim bbIntersect prims node ray total_isects).2.2
        = total_isects + reachedHas prim bbIntersect prims node ray ∧
      (BVHAccel.intersect prim bbIntersect prims node ray i total_isects).2.2.2
        = total_isects + reachedIntersect prim bbIntersect prims node ray i) := by
  refine ⟨?_, ?_, ?_⟩
  · intro bb s e hp
    refine ⟨?_, anyHitResults_length prim _ ray, ?_, closestResults_length prim _ ray i⟩
    · rw [has_intersection_leaf_pass prim bbIntersect prims bb s e ray total_isects hp,
        leafHas_eq]
    · rw [intersect_leaf_pass prim bbIntersect prims bb s e ray i total_isects hp,
        leafIntersect_eq]
  · intro bb s e l r hp
    exact ⟨has_intersection_inner_pass prim bbIntersect prims bb s e l r ray total_isects hp,
      intersect_inner_pass prim bbIntersect prims bb s e l r ray i total_isects hp⟩
  · intro node
    constructor
    · rw [has_intersection_counter prim bbIntersect prims node ray total_isects]
    · rw [intersect_counter prim bbIntersect prims node ray i total_isects]

/-- The witness of C18: the leaf over the seventh sphere passes the box test of the ray
aimed at it and its one primitive is tested; on the tree over the nine spheres the any-hit
query of that ray raises the counter by 1, the size of the one leaf it reaches. -/
theorem bvh_no_short_circuit_witness :
    (BVHAccel.has_intersection (Sphere.primitive qsqrt) BBox.intersect nineSpheres
        (BVHNode.leaf (unitSphereAt 18).get_bbox 6 7) seventhRay 0
      = ((anyHitResults (Sphere.primitive qsqrt) (slice nineSpheres 6 7) seventhRay).1.any id,
         (anyHitResults (Sphere.primitive qsqrt) (slice nineSpheres 6 7) seventhRay).2,
         0 + (slice nineSpheres 6 7).length) ∧
      (anyHitResults (Sphere.primitive qsqrt) (slice nineSpheres 6 7) seventhRay).1.length
        = (slice nineSpheres 6 7).length ∧
      BVHAccel.intersect (Sphere.primitive qsqrt) BBox.intersect nineSpheres
          (BVHNode.leaf (unitSphereAt 18).get_bbox 6 7) seventhRay blankRecord 0
        = ((closestResults (Sphere.primitive qsqrt) (slice nineSpheres 6 7) seventhRay
              blankRecord).1.any id,
           (closestResults (Sphere.primitive qsqrt) (slice nineSpheres 6 7) seventhRay
              blankRecord).2.1,
           (closestResults (Sphere.primitive qsqrt) (slice nineSpheres 6 7) seventhRay
              blankRecord).2.2,
           0 + (slice nineSpheres 6 7).length) ∧
      (closestResults (Sphere.primitive qsqrt) (slice nineSpheres 6 7) seventhRay
          blankRecord).1.length = (slice nineSpheres 6 7).length) ∧
    (BVHAccel.new Sphere.get_bbox 4 nineSpheres 2).map (fun acc =>
        ((BVHAccel.has_intersection (Sphere.primitive qsqrt) BBox.intersect acc.primitives
            acc.root seventhRay 0).2.2,
          reachedHas (Sphere.primitive qsqrt) BBox.intersect acc.primitives acc.root
            seventhRay)) = some (1, 1) :=
  ⟨(bvh_no_short_circuit (Sphere.primitive qsqrt) BBox.intersect nineSpheres seventhRay
      blankRecord 0).1 (unitSphereAt 18).get_bbox 6 7 (by decide!), by decide!⟩

end PruneAndCount

section ShrinkAndAxis

variable {K : Type} [LinearOrderedField K]

/-- C19 (amended): over exact arithmetic, for a ray with non-zero direction (and `sqrt` not
negative on the discriminant):
when `Sphere::intersect` accepts, the new `max_t` is the near root `t1` that `test` wrote,
`min_t ≤ t1 ≤ old max_t`, nothing else of the ray changes and the record's `t` is `t1`; when
it rejects, ray and record are unchanged.  `Sphere::has_intersection` returns the same
boolean and leaves the same ray; it has no record to write. -/
theorem sphere_accept_shrinks (sqrt : K → K) (s : Sphere K) (r : Ray K)
    (i : Intersection (Sphere K) K)
    (hd : r.d ≠ ⟨0, 0, 0⟩) (_hint : r.min_t ≤ r.max_t)
    (hsqrt : 0 ≤ Sphere.delta s r → 0 ≤ sqrt (Sphere.delta s r)) :
    ((Sphere.intersect sqrt s r i).1 = true →
      (Sphere.intersect sqrt s r i).2.1
        = { r with max_t := (-Sphere.qb s r - sqrt (Sphere.delta s r)) / (2 * Sphere.qa r) } ∧
      (Sphere.test sqrt s r 0 0).2.1
        = (-Sphere.qb s r - sqrt (Sphere.delta s r)) / (2 * Sphere.qa r) ∧
      r.min_t ≤ (-Sphere.qb s r - sqrt (Sphere.delta s r)) / (2 * Sphere.qa r) ∧
      (-Sphere.qb s r - sqrt (Sphere.delta s r)) / (2 * Sphere.qa r) ≤ r.max_t ∧
      (Sphere.intersect sqrt s r i).2.2.t
        = (-Sphere.qb s r - sqrt (Sphere.delta s r)) / (2 * Sphere.qa r)) ∧
    ((Sphere.intersect sqrt s r i).1 = false →
      (Sphere.intersect sqrt s r i).2.1 = r ∧ (Sphere.intersect sqrt s r i).2.2 = i) ∧
    (Sphere.has_intersection sqrt s r).1 = (Sphere.intersect sqrt s r i).1 ∧
    (Sphere.has_intersection sqrt s r).2 = (Sphere.intersect sqrt s r i).2.1 := by
  by_cases ht : (Sphere.test sqrt s r 0 0).1 = true
  · obtain ⟨hδ, hmin, hmax⟩ := Sphere.test_true sqrt s r 0 0 ht
    have hle := Sphere.roots_le sqrt s r hd (hsqrt hδ)
    have ht1 : (Sphere.test sqrt s r 0 0).2.1
        = (-Sphere.qb s r - sqrt (Sphere.delta s r)) / (2 * Sphere.qa r) := by
      rw [Sphere.test_of_nonneg sqrt s r 0 0 hδ]
      exact min_eq_left hle
    have hI : Sphere.intersect sqrt s r i
        = (true, { r with max_t := (Sphere.test sqrt s r 0 0).2.1 },
            { t := (Sphere.test sqrt s r 0 0).2.1
              n := Vector3D.unit sqrt (r.o + r.d.scale (Sphere.test sqrt s r 0 0).2.1 - s.o)
              primitive := some s
              bsdf := some s.bsdf }) := by
      unfold Sphere.intersect
      simp [ht]
    have hH : Sphere.has_intersection sqrt s r
        = (true, { r with max_t := (Sphere.test sqrt s r 0 0).2.1 }) := by
      unfold Sphere.has_intersection
      simp [ht]
    rw [hI, hH]
    simp only [ht1, Bool.true_eq_false, false_implies, true_implies, and_true, true_and]
    exact ⟨hmin, hle.trans hmax⟩
  · have hI : Sphere.intersect sqrt s r i = (false, r, i) := by
      unfold Sphere.intersect
      simp [ht]
    have hH : Sphere.has_intersection sqrt s r = (false, r) := by
      unfold Sphere.has_intersection
      simp [ht]
    rw [hI, hH]
    simp

/-- The witness of C19 (amended): the sphere at the origin with `r2 = 4` and the ray from `(0,0,-10)`
in direction `(0,0,1)` with interval `[0, 100]`: the hit is accepted, `max_t` and the
record's `t` become 8.  The code on doubles answers the same on this input. -/
theorem sphere_accept_shrinks_witness :
    OnDoubles.has_intersection originSphere.toDbl (axisRay 100).toDbl
      = (true, (axisRay 8).toDbl) ∧
    (Sphere.intersect qsqrt originSphere (axisRay 100) blankRecord).1 = true ∧
    (Sphere.intersect qsqrt originSphere (axisRay 100) blankRecord).2.1 = axisRay 8 ∧
    (Sphere.intersect qsqrt originSphere (axisRay 100) blankRecord).2.2.t = 8 ∧
    (((Sphere.intersect qsqrt originSphere (axisRay 100) blankRecord).1 = true →
      (Sphere.intersect qsqrt originSphere (axisRay 100) blankRecord).2.1
        = { axisRay 100 with
            max_t := (-Sphere.qb originSphere (axisRay 100)
              - qsqrt (Sphere.delta originSphere (axisRay 100))) / (2 * Sphere.qa (axisRay 100)) } ∧
      (Sphere.test qsqrt originSphere (axisRay 100) 0 0).2.1
        = (-Sphere.qb originSphere (axisRay 100)
            - qsqrt (Sphere.delta originSphere (axisRay 100))) / (2 * Sphere.qa (axisRay 100)) ∧
      (axisRay 100).min_t ≤ (-Sphere.qb originSphere (axisRay 100)
            - qsqrt (Sphere.delta originSphere (axisRay 100))) / (2 * Sphere.qa (axisRay 100)) ∧
      (-Sphere.qb originSphere (axisRay 100)
            - qsqrt (Sphere.delta originSphere (axisRay 100))) / (2 * Sphere.qa (axisRay 100))
        ≤ (axisRay 100).max_t ∧
      (Sphere.intersect qsqrt originSphere (axisRay 100) blankRecord).2.2.t
        = (-Sphere.qb originSphere (axisRay 100)
            - qsqrt (Sphere.delta originSphere (axisRay 100))) / (2 * Sphere.qa (axisRay 100))) ∧
    ((Sphere.intersect qsqrt originSphere (axisRay 100) blankRecord).1 = false →
      (Sphere.intersect qsqrt originSphere (axisRay 100) blankRecord).2.1 = axisRay 100 ∧
      (Sphere.intersect qsqrt originSphere (axisRay 100) blankRecord).2.2 = blankRecord) ∧
    (Sphere.has_intersection qsqrt originSphere (axisRay 100)).1
      = (Sphere.intersect qsqrt originSphere (axisRay 100) blankRecord).1 ∧
    (Sphere.has_intersection qsqrt originSphere (axisRay 100)).2
      = (Sphere.intersect qsqrt originSphere (axisRay 100) blankRecord).2.1) :=
  ⟨by decide!, by decide!, by decide!, by decide!,
    sphere_accept_shrinks qsqrt originSphere (axisRay 100) blankRecord (by decide!)
      (by decide!) (fun _ => by decide!)⟩

/-- C15 (amended): the split axis is x when the x-extent is strictly greater than the other
two, y when the y-extent is strictly greater than the other two, and z whenever the
z-extent is at least the other two; except when x and y tie strictly above z, the chosen
axis has the greatest extent. -/
theorem chooseAxis_spec (v : Vector3D K) :
    (v.y < v.x ∧ v.z < v.x → chooseAxis v = 0) ∧
    (v.z < v.y ∧ v.x < v.y → chooseAxis v = 1) ∧
    (v.x ≤ v.z ∧ v.y ≤ v.z → chooseAxis v = 2) ∧
    (¬ (v.x = v.y ∧ v.z < v.x) →
      v.x ≤ v.coord (chooseAxis v) ∧ v.y ≤ v.coord (chooseAxis v) ∧
        v.z ≤ v.coord (chooseAxis v)) := by
  refine ⟨?_, ?_, ?_, ?_⟩
  · intro h
    unfold chooseAxis
    simp [h.1, h.2]
  · intro h
    unfold chooseAxis
    have : ¬ (v.x > v.y ∧ v.x > v.z) := fun hx => absurd hx.1 (not_lt.2 (le_of_lt h.2))
    simp [this, h.1, h.2]
  · intro h
    unfold chooseAxis
    have h1 : ¬ (v.x > v.y ∧ v.x > v.z) := fun hx => absurd hx.2 (not_lt.2 h.1)
    have h2 : ¬ (v.y > v.z ∧ v.y > v.x) := fun hy => absurd hy.1 (not_lt.2 h.2)
    simp only [h1, h2, if_false]
  · intro hne
    unfold chooseAxis
    by_cases h1 : v.x > v.y ∧ v.x > v.z
    · simp only [h1, and_self, if_true, Vector3D.coord]
      exact ⟨le_refl _, le_of_lt h1.1, le_of_lt h1.2⟩
    · by_cases h2 : v.y > v.z ∧ v.y > v.x
      · simp only [h1, h2, and_self, if_true, if_false, Vector3D.coord]
        exact ⟨le_of_lt h2.2, le_refl _, le_of_lt h2.1⟩
      · simp only [h1, h2, if_false, Vector3D.coord]
        have hzx : v.x ≤ v.z := by
          by_contra hlt
          have hlt := not_le.1 hlt
          have hxy : v.x ≤ v.y := by
            by_contra hc
            exact h1 ⟨not_le.1 hc, hlt⟩
          have hyx : v.y ≤ v.x := by
            by_contra hc
            exact h2 ⟨lt_of_lt_of_le hlt hxy, not_le.1 hc⟩
          exact hne ⟨le_antisymm hxy hyx, hlt⟩
        have hzy : v.y ≤ v.z := by
          by_contra hlt
          have hlt := not_le.1 hlt
          have hyx : v.y ≤ v.x := by
            by_contra hc
            exact h2 ⟨hlt, not_le.1 hc⟩
          have hxy : v.x ≤ v.y := by
            by_contra hc
            exact h1 ⟨not_le.1 hc, lt_of_lt_of_le hlt hyx⟩
          exact hne ⟨le_antisymm hxy hyx, lt_of_lt_of_le hlt hyx⟩
        exact ⟨hzx, hzy, le_refl _⟩

/-- The witness of C15 (amended): for the nine unit spheres the centroid box has extents
`(12, 0, 0)` and the axis chosen is x. -/
theorem chooseAxis_spec_witness :
    (scanRange Sphere.get_bbox nineSpheres).2.2.extent = ⟨12, 0, 0⟩ ∧
    chooseAxis (scanRange Sphere.get_bbox nineSpheres).2.2.extent = 0 :=
  ⟨by decide!,
    (chooseAxis_spec (scanRange Sphere.get_bbox nineSpheres).2.2.extent).1 (by decide!)⟩

end ShrinkAndAxis

section OnDoublesTheorems

/-- The reading on doubles agrees with the exact reading on the input of C8: the far root
12 is beyond `max_t = 10` and `Sphere::test` returns false. -/
theorem on_doubles_far_root :
    OnDoubles.test originSphere.toDbl (axisRay 10).toDbl (Dbl.fin false 0) (Dbl.fin false 0)
      = (false, Dbl.fin false 8, Dbl.fin false 12) := by
  decide!

/-- C3 (the claim fails).  For the ray from `(100, 0, 0)` with the zero direction every one
of the nine unit spheres reports a hit when tested alone (in the exact reading and on
doubles), and the query through the tree returns false.  On doubles, for the ray that
passes the unit sphere at a distance of `2^-52`, the sphere tested alone reports a hit,
while the exact slab test of its box, the box of the root of the one-sphere tree, prunes
the ray. -/
theorem bvh_has_intersection_fails :
    (BVHAccel.new Sphere.get_bbox 4 nineSpheres 2).map (fun acc =>
        (BVHAccel.has_intersection (Sphere.primitive qsqrt) BBox.intersect acc.primitives
          acc.root zeroRay 0).1) = some false ∧
    nineSpheres.all (fun s => (Sphere.has_intersection qsqrt s zeroRay).1) = true ∧
    nineSpheres.all (fun s => (OnDoubles.has_intersection s.toDbl zeroRay.toDbl).1) = true ∧
    grazeRay.exact ∧ grazeRay.d ≠ ⟨0, 0, 0⟩ ∧
    (BVHAccel.new Sphere.get_bbox 1 [unitSphereAt 0] 1).map (fun acc =>
        (acc.root, acc.primitives))
      = some (BVHNode.leaf (unitSphereAt 0).get_bbox 0 1, [unitSphereAt 0]) ∧
    prunes BBox.intersect (unitSphereAt 0).get_bbox grazeRay ∧
    (OnDoubles.has_intersection (unitSphereAt 0).toDbl grazeRay.toDbl).1 = true := by
  decide!

/-- C9 (the claim fails).  On doubles, for the unit sphere at the origin and the ray from
`(0, 0, -10^8)` in direction `(0, 0, 1)` the discriminant is 4, and `Sphere::test` writes
`t1 = t2 = 10^8`: this is no root of the quadratic, and the ray point there is the centre,
not a point of the surface.  For the ray from `(0, 0, -2^600)` it writes not-a-number for
both, and `t1 <= t2` is false. -/
theorem sphere_test_roots_fail_on_doubles :
    (unitSphereAt 0).exact ∧ farRay.exact ∧ farRay.d ≠ ⟨0, 0, 0⟩ ∧
    Sphere.delta (unitSphereAt 0) farRay = 4 ∧
    OnDoubles.test (unitSphereAt 0).toDbl farRay.toDbl (Dbl.fin false 0) (Dbl.fin false 0)
      = (true, Dbl.fin false 100000000, Dbl.fin false 100000000) ∧
    Sphere.qa farRay * 100000000 * 100000000 + Sphere.qb (unitSphereAt 0) farRay * 100000000
      + Sphere.qc (unitSphereAt 0) farRay = -1 ∧
    dot (farRay.at_ 100000000 - (unitSphereAt 0).o) (farRay.at_ 100000000 - (unitSphereAt 0).o)
      = 0 ∧
    (unitSphereAt 0).r2 = 1 ∧
    hugeRay.exact ∧ hugeRay.d ≠ ⟨0, 0, 0⟩ ∧
    Sphere.delta (unitSphereAt 0) hugeRay = 4 ∧
    OnDoubles.test (unitSphereAt 0).toDbl hugeRay.toDbl (Dbl.fin false 0) (Dbl.fin false 0)
      = (true, Dbl.nan, Dbl.nan) ∧
    Dbl.le Dbl.nan Dbl.nan = false := by
  decide!

/-- C10 (the claim fails).  On doubles, for the sphere of radius `5 * 2^58` at the origin
and the ray from `(1, 3 * 2^58, 4 * 2^58)` in direction `(1, 4, -3)` with interval
`[0, 100]`: the origin is strictly outside the sphere and the direction points away from
it, and yet `Sphere::test`, `Sphere::has_intersection` and `Sphere::intersect` return true,
and `max_t` becomes `-0`. -/
theorem sphere_away_hit_on_doubles :
    wideSphere.exact ∧ tangentRay.exact ∧ wideSphere.r2 = wideSphere.r * wideSphere.r ∧
    0 ≤ tangentRay.min_t ∧
    wideSphere.r2 < dot (tangentRay.o - wideSphere.o) (tangentRay.o - wideSphere.o) ∧
    0 < dot tangentRay.d (tangentRay.o - wideSphere.o) ∧
    (OnDoubles.test wideSphere.toDbl tangentRay.toDbl (Dbl.fin false 0) (Dbl.fin false 0)).1
      = true ∧
    OnDoubles.has_intersection wideSphere.toDbl tangentRay.toDbl
      = (true, { tangentRay.toDbl with max_t := Dbl.fin true 0 }) ∧
    (OnDoubles.intersect wideSphere.toDbl tangentRay.toDbl blankRecordD).1 = true ∧
    (OnDoubles.intersect wideSphere.toDbl tangentRay.toDbl blankRecordD).2.1.max_t
      = Dbl.fin true 0 := by
  decide!

/-- C19 (the claim fails).  On doubles, for the unit sphere at the origin and the ray from
`(0, 0, -2^600)` in direction `(0, 0, 1)` with interval `[0, 100]`, the squares overflow, the
discriminant is not a number, and `Sphere::intersect` and `Sphere::has_intersection` accept:
the new `max_t` and the record's `t` are not-a-number, so that neither `min_t <= t1` nor
`t1 <= old max_t` holds.  For the ray from `(0, 0, -10^8)` with interval `[0, 10^9]` they
accept with `max_t = 10^8`, which by rounding is not the near root `10^8 - 1`. -/
theorem sphere_accept_fails_on_doubles :
    (unitSphereAt 0).exact ∧ hugeRay.exact ∧ hugeRay.min_t ≤ hugeRay.max_t ∧
    hugeRay.d ≠ ⟨0, 0, 0⟩ ∧
    (OnDoubles.intersect (unitSphereAt 0).toDbl hugeRay.toDbl blankRecordD).1 = true ∧
    (OnDoubles.intersect (unitSphereAt 0).toDbl hugeRay.toDbl blankRecordD).2.1.max_t
      = Dbl.nan ∧
    (OnDoubles.intersect (unitSphereAt 0).toDbl hugeRay.toDbl blankRecordD).2.2.t = Dbl.nan ∧
    OnDoubles.has_intersection (unitSphereAt 0).toDbl hugeRay.toDbl
      = (true, { hugeRay.toDbl with max_t := Dbl.nan }) ∧
    Dbl.le hugeRay.toDbl.min_t Dbl.nan = false ∧
    Dbl.le Dbl.nan hugeRay.toDbl.max_t = false ∧
    farRay.exact ∧ farRay.min_t ≤ farRay.max_t ∧ farRay.d ≠ ⟨0, 0, 0⟩ ∧
    (OnDoubles.intersect (unitSphereAt 0).toDbl farRay.toDbl blankRecordD).1 = true ∧
    (OnDoubles.intersect (unitSphereAt 0).toDbl farRay.toDbl blankRecordD).2.1.max_t
      = Dbl.fin false 100000000 ∧
    (OnDoubles.intersect (unitSphereAt 0).toDbl farRay.toDbl blankRecordD).2.2.t
      = Dbl.fin false 100000000 ∧
    (-Sphere.qb (unitSphereAt 0) farRay - qsqrt (Sphere.delta (unitSphereAt 0) farRay))
      / (2 * Sphere.qa farRay) = 99999999 := by
  decide!

end OnDoublesTheorems

end CGL
